import Mathlib

/-!
# Prooffolio: profile store, router and form handlers of `script.js`

A shallow embedding of the application logic of `src/script.js`.

* JavaScript strings are Lean strings; the string primitives the script calls
  (`trim`, `startsWith`, `replace` with a string pattern) are written out over
  the character list.
* The two `localStorage` items and the module-level variables of the script
  form an explicit `AppState`; every handler is a function on that state.
* The value stored under `csg_profiles` is a piece of JSON text.  The model
  distinguishes an absent item, a text that does not parse, and a text that is
  a JSON object of profile records (the only texts `saveProfiles` ever
  writes).  The members of such a text are kept as written, in order, and
  `loadProfiles` builds the object from them the way `JSON.parse` does.
* `loadProfiles()` yields an ordinary object, so the property read
  `loadProfiles()[username]` also finds the members of `Object.prototype`.
* A handler that can raise an uncaught `TypeError` returns a `Completion`.
* `String.prototype.toLowerCase` and the constructor `URL` belong to the
  platform, not to the script: the functions that call them (`slugify`,
  `renderProfileList`, `truncateURL`) take them as a parameter, and what is
  proved holds for every such function unless a hypothesis says otherwise.
* `truncateURL` measures and cuts UTF-16 code units, as `length` and `slice`
  do; its texts are lists of code units.
-/

namespace Prooffolio

/-! ## Strings -/

/-- The code points `String.prototype.trim` strips: WhiteSpace (TAB, VT, FF,
ZWNBSP and the category Zs) and LineTerminator (LF, CR, LS, PS). -/
def isJsSpace (c : Char) : Bool :=
  let n := c.toNat
  n == 0x09 || n == 0x0A || n == 0x0B || n == 0x0C || n == 0x0D || n == 0x20 ||
  n == 0xA0 || n == 0x1680 || (0x2000 ≤ n && n ≤ 0x200A) || n == 0x2028 ||
  n == 0x2029 || n == 0x202F || n == 0x205F || n == 0x3000 || n == 0xFEFF

/-- Drop the leading white space of a character list. -/
def trimStart : List Char → List Char
  | [] => []
  | c :: cs => if isJsSpace c then trimStart cs else c :: cs

/-- The method `String.prototype.trim`. -/
def jsTrim (s : String) : String :=
  ⟨(trimStart (trimStart s.data).reverse).reverse⟩

/-- The test `s.startsWith(pat)` on character lists. -/
def startsWith : List Char → List Char → Bool
  | [], _ => true
  | _ :: _, [] => false
  | p :: ps, c :: cs => p == c && startsWith ps cs

/-- The call `s.replace(pat, rep)` with a string pattern: the first occurrence
of `pat` in `s`, if any, is replaced. -/
def replaceFirst (pat rep : List Char) : List Char → List Char
  | [] => if pat = [] then rep else []
  | c :: cs =>
    if startsWith pat (c :: cs) then rep ++ (c :: cs).drop pat.length
    else c :: replaceFirst pat rep cs

/-- The method `String.prototype.startsWith`. -/
def jsStartsWith (s pat : String) : Bool :=
  startsWith pat.data s.data

/-- The method `String.prototype.replace` with a string pattern. -/
def jsReplace (s pat rep : String) : String :=
  ⟨replaceFirst pat.data rep.data s.data⟩

/-- The `pattern` attribute of the username input, `[a-z0-9\-]+`: which
characters a username may contain. -/
def isUsernameChar (c : Char) : Bool :=
  (0x61 ≤ c.toNat && c.toNat ≤ 0x7A) || (0x30 ≤ c.toNat && c.toNat ≤ 0x39) || c == '-'

/-- A string the username input accepts: it matches `[a-z0-9\-]+` as a
whole. -/
def isUsername (s : String) : Bool :=
  !s.data.isEmpty && s.data.all isUsernameChar

/-! ## Data model -/

/-- One showcase entry, as the entry editor builds it (`entryData`). -/
structure Entry where
  id : String
  title : String
  description : String
  link : String
  thumbnail : String
  tag : String
  featured : Bool
deriving DecidableEq, Repr

/-- A profile record as it is read back from storage.  A field that the JSON
text lacks is `none`; the renderers default such fields (`p.name || ""`,
`profile.entries || []`, `createdAt || 0`). -/
structure Profile where
  name : Option String
  bio : Option String
  image : Option String
  entries : Option (List Entry)
  createdAt : Option Nat
deriving DecidableEq, Repr

/-! ## The object returned by `loadProfiles` -/

/-- The own properties of the profiles object, in property order. -/
abbrev Obj := List (String × Profile)

/-- The own property names, in property order: `Object.keys(all)`. -/
def Obj.keys (m : Obj) : List String := m.map Prod.fst

/-- The property names of `Object.prototype`, which every object created by
`JSON.parse` or by the literal `{}` inherits. -/
def objectPrototypeKeys : List String :=
  ["constructor", "__defineGetter__", "__defineSetter__", "hasOwnProperty",
   "__lookupGetter__", "__lookupSetter__", "isPrototypeOf",
   "propertyIsEnumerable", "toString", "valueOf", "__proto__", "toLocaleString"]

/-- The own property `k` of the object, if there is one. -/
def Obj.own : Obj → String → Option Profile
  | [], _ => none
  | (k', v) :: rest, k => if k' = k then some v else Obj.own rest k

/-- Overwrite the value of the own property `k`. -/
def Obj.overwrite : Obj → String → Profile → Obj
  | [], _, _ => []
  | (k', v') :: rest, k, v =>
    if k' = k then (k, v) :: rest else (k', v') :: Obj.overwrite rest k v

/-- The value of a decimal digit. -/
def digitValue (c : Char) : Nat := c.toNat - 0x30

/-- An array index: the canonical decimal numeral of an integer below
`2^32 - 1`.  Own properties with such names come first in property order,
in ascending numeric order. -/
def arrayIndex? (k : String) : Option Nat :=
  match k.data with
  | [] => none
  | c :: cs =>
    if (c :: cs).all Char.isDigit && (c != '0' || cs.isEmpty) then
      let n := (c :: cs).foldl (fun acc d => acc * 10 + digitValue d) 0
      if n < 4294967295 then some n else none
    else none

/-- Add a new own property with the array index `n`: after the array indices
below `n`, before everything else. -/
def Obj.insertIndex (n : Nat) (k : String) (v : Profile) : Obj → Obj
  | [] => [(k, v)]
  | (k', v') :: rest =>
    match arrayIndex? k' with
    | some n' =>
      if n' < n then (k', v') :: Obj.insertIndex n k v rest
      else (k, v) :: (k', v') :: rest
    | none => (k, v) :: (k', v') :: rest

/-- Add a new own property `k`, at its place in property order. -/
def Obj.addNew (m : Obj) (k : String) (v : Profile) : Obj :=
  match arrayIndex? k with
  | some n => Obj.insertIndex n k v m
  | none => m ++ [(k, v)]

/-- The operation CreateDataProperty, by which `JSON.parse` adds each member
of the text to the object it builds (a later member of the same name
overwrites the earlier one). -/
def Obj.define (m : Obj) (k : String) (v : Profile) : Obj :=
  match Obj.own m k with
  | some _ => Obj.overwrite m k v
  | none => Obj.addNew m k v

/-- The assignment `all[k] = v`.  An own property is overwritten.  Otherwise
the name `__proto__` reaches the setter inherited from `Object.prototype`,
which changes the prototype of the object and adds no own property; any other
name becomes a new own property. -/
def Obj.assign (m : Obj) (k : String) (v : Profile) : Obj :=
  match Obj.own m k with
  | some _ => Obj.overwrite m k v
  | none => if k = "__proto__" then m else Obj.addNew m k v

/-- The statement `delete all[k]`. -/
def Obj.delete (m : Obj) (k : String) : Obj :=
  m.filter (fun kv => kv.1 != k)

/-- The result of the property read `all[k]`, followed by `|| null`. -/
inductive Found where
  /-- No such property: `undefined`, turned into `null`. -/
  | null
  /-- An own property: a stored profile record. -/
  | record (p : Profile)
  /-- The member `k` of `Object.prototype` (a function, or the prototype
  itself for `__proto__`): a truthy value that is no profile record. -/
  | inherited (k : String)
deriving DecidableEq, Repr

/-- The property read `all[k] || null`. -/
def Obj.get (m : Obj) (k : String) : Found :=
  match Obj.own m k with
  | some p => .record p
  | none => if k ∈ objectPrototypeKeys then .inherited k else .null

/-- What the expression `profile.entries` evaluates to. -/
inductive EntriesProp where
  | undefined
  | array (es : List Entry)
  /-- A truthy value without array methods: `Object.entries`, which is what
  `entries` names on the constructor `Object`. -/
  | notArray
deriving DecidableEq, Repr

/-- The expression `profile.entries` on the result of `getProfile`. -/
def Found.entries : Found → EntriesProp
  | .null => .undefined
  | .record p =>
    match p.entries with
    | some es => .array es
    | none => .undefined
  | .inherited k => if k = "constructor" then .notArray else .undefined

/-! ## Application state -/

/-- The item stored under `STORAGE_KEY`. -/
inductive Blob where
  /-- No item: `getItem` returns `null`. -/
  | absent
  /-- A text on which `JSON.parse` throws. -/
  | corrupt
  /-- The text of a JSON object, given by its members in order. -/
  | mapping (members : List (String × Profile))
deriving DecidableEq, Repr

/-- The callback armed by `showConfirm`. -/
inductive Pending where
  /-- The callback of a delete-entry button of the Edit view. -/
  | deleteEntry (username id : String)
  /-- The callback of the Delete Profile button of the Edit view. -/
  | deleteProfile (username : String)
deriving DecidableEq, Repr

/-- The state the script reads and writes. -/
structure AppState where
  /-- The item `localStorage["csg_profiles"]`. -/
  profiles : Blob
  /-- The item `localStorage["csg_session"]`. -/
  session : Option String
  /-- The variable `entryEditUsername`. -/
  entryEditUsername : Option String
  /-- The variable `confirmCallback`. -/
  confirmCallback : Option Pending
  /-- The fragment `window.location.hash`. -/
  hash : String
  /-- The messages passed to `toast`, oldest first. -/
  toasts : List String
deriving DecidableEq, Repr

/-- How a handler ends. -/
inductive Completion where
  /-- The handler returned; `st` is the state it leaves. -/
  | normal (st : AppState)
  /-- The handler raised an uncaught `TypeError`; `st` is the state at that
  point. -/
  | thrown (st : AppState)
deriving DecidableEq, Repr

/-- The state a handler leaves, however it ended. -/
def Completion.state : Completion → AppState
  | .normal st => st
  | .thrown st => st

/-! ## Storage helpers -/

/-- The function `loadProfiles`: `JSON.parse(getItem(KEY)) || {}`, and `{}`
when the parse throws. -/
def loadProfiles (b : Blob) : Obj :=
  match b with
  | .absent => []
  | .corrupt => []
  | .mapping members => members.foldl (fun m kv => Obj.define m kv.1 kv.2) []

/-- The function `saveProfiles`: `JSON.stringify` writes the own properties
in property order. -/
def saveProfiles (m : Obj) : Blob := .mapping m

/-- The function `getProfile`. -/
def getProfile (st : AppState) (username : String) : Found :=
  Obj.get (loadProfiles st.profiles) username

/-- The function `setProfile`. -/
def setProfile (st : AppState) (username : String) (data : Profile) : AppState :=
  { st with profiles := saveProfiles (Obj.assign (loadProfiles st.profiles) username data) }

/-- The function `deleteProfile`. -/
def deleteProfile (st : AppState) (username : String) : AppState :=
  { st with profiles := saveProfiles (Obj.delete (loadProfiles st.profiles) username) }

/-- The function `getSession`: `getItem(SESSION_KEY) || null`. -/
def getSession (st : AppState) : Option String :=
  match st.session with
  | none => none
  | some s => if s = "" then none else some s

/-- The function `setSession`. -/
def setSession (st : AppState) (username : String) : AppState :=
  { st with session := some username }

/-- The function `clearSession`. -/
def clearSession (st : AppState) : AppState :=
  { st with session := none }

/-- The function `toast`. -/
def toast (st : AppState) (message : String) : AppState :=
  { st with toasts := st.toasts ++ [message] }

/-! ## Router and views -/

/-- The view `navigate` selects. -/
inductive Route where
  | home
  | create
  | edit (username : String)
  | publicProfile (username : String)
deriving DecidableEq, Repr

/-- The branch structure of `navigate`: which render function is called, and
with which username. -/
def route (hash : String) : Route :=
  if hash = "" ∨ hash = "#" ∨ hash = "#/" then .home
  else if hash = "#/create" then .create
  else if jsStartsWith hash "#/edit/" then .edit (jsReplace hash "#/edit/" "")
  else if jsStartsWith hash "#/" then .publicProfile (jsReplace hash "#/" "")
  else .home

/-- What a render function produces: the content it puts into its container,
or an uncaught `TypeError` raised before the container is written. -/
inductive Rendered (α : Type) where
  | view (v : α)
  | typeError
deriving DecidableEq, Repr

/-- The content `renderPublicProfile` writes into `profileContent`. -/
inductive PublicView where
  /-- The block "Profile not found". -/
  | notFound
  /-- The header followed by the empty state (`entries.length === 0`). -/
  | emptyState (profile : Found) (isOwner : Bool)
  /-- The header, the featured callout if `featured` is present, and the grid
  of `others` if that is non-empty. -/
  | content (profile : Found) (isOwner : Bool) (featured : Option Entry) (others : List Entry)
deriving DecidableEq, Repr

/-- The function `renderPublicProfile`.  On the constructor `Object` the
expression `profile.entries || []` is the function `Object.entries`, and the
call `entries.find` raises a `TypeError`. -/
def renderPublicProfile (st : AppState) (username : String) : Rendered PublicView :=
  match getProfile st username with
  | .null => .view .notFound
  | profile =>
    match profile.entries with
    | .notArray => .typeError
    | ep =>
      let entries : List Entry := match ep with
        | .array es => es
        | _ => []
      let featured := entries.find? (fun e => e.featured)
      let others := entries.filter (fun e => !e.featured)
      let isOwner : Bool := decide (getSession st = some username)
      if entries.length = 0 then .view (.emptyState profile isOwner)
      else .view (.content profile isOwner featured others)

/-- The content `renderEditProfile` writes into `editContent`. -/
inductive EditView where
  /-- The block "Access denied". -/
  | accessDenied
  /-- The block "Profile not found". -/
  | notFound
  /-- The profile form, one row per entry, and the Delete Profile button. -/
  | form (profile : Found) (entries : List Entry)
deriving DecidableEq, Repr

/-- The function `renderEditProfile`.  On the constructor `Object` the call
`entries.map` raises a `TypeError`. -/
def renderEditProfile (st : AppState) (username : String) : Rendered EditView :=
  if getSession st ≠ some username then .view .accessDenied
  else
    match getProfile st username with
    | .null => .view .notFound
    | profile =>
      match profile.entries with
      | .notArray => .typeError
      | .array es => .view (.form profile es)
      | .undefined => .view (.form profile [])

/-- What `renderCreateProfile` does. -/
inductive CreateView where
  /-- A session exists: no form, the fragment is set to the Edit address. -/
  | redirect
  /-- The Create form. -/
  | form
deriving DecidableEq, Repr

/-- The function `renderCreateProfile`. -/
def renderCreateProfile (st : AppState) : AppState × CreateView :=
  match getSession st with
  | some session => ({ st with hash := "#/edit/" ++ session }, .redirect)
  | none => (st, .form)

/-- The function `navigate`, as far as the state is concerned: `renderHome`
leaves the state alone and does not throw, `renderCreateProfile` may set the
fragment, the two profile views leave the state alone and may throw. -/
def navigate (st : AppState) (hash : String) : Completion :=
  match route hash with
  | .home => .normal st
  | .create => .normal (renderCreateProfile st).1
  | .edit username =>
    match renderEditProfile st username with
    | .view _ => .normal st
    | .typeError => .thrown st
  | .publicProfile username =>
    match renderPublicProfile st username with
    | .view _ => .normal st
    | .typeError => .thrown st

/-! ## Create form -/

/-- The values of the four inputs of the Create form at submit. -/
structure CreateForm where
  createUsername : String
  createName : String
  createBio : String
  createImage : String
deriving DecidableEq, Repr

/-- The submit handler of `createForm`; `now` is the value of `Date.now()`. -/
def createSubmit (st : AppState) (f : CreateForm) (now : Nat) : AppState :=
  let username := jsTrim f.createUsername
  let name := jsTrim f.createName
  let bio := jsTrim f.createBio
  let image := jsTrim f.createImage
  if username = "" ∨ name = "" then st
  else
    match getProfile st username with
    | .null =>
      let profile : Profile :=
        { name := some name, bio := some bio, image := some image,
          entries := some [], createdAt := some now }
      let st1 := setSession (setProfile st username profile) username
      let st2 := toast st1 "Profile created!"
      { st2 with hash := "#/edit/" ++ username }
    | _ => toast st "Username already taken. Choose another."

/-! ## Entry editor -/

/-- The function `openEntryModal`, as far as the state is concerned. -/
def openEntryModal (st : AppState) (username : String) : AppState :=
  { st with entryEditUsername := some username }

/-- The values of the inputs of the entry form at submit. -/
structure EntryForm where
  entryEditId : String
  entryTitle : String
  entryDesc : String
  entryLink : String
  entryThumb : String
  entryTag : String
  entryFeatured : Bool
deriving DecidableEq, Repr

/-- The record `entryData` of the submit handler; `uid` is the value the call
`uid()` returns. -/
def entryData (f : EntryForm) (uid : String) : Entry :=
  { id := if f.entryEditId ≠ "" then f.entryEditId else uid
    title := jsTrim f.entryTitle
    description := jsTrim f.entryDesc
    link := jsTrim f.entryLink
    thumbnail := jsTrim f.entryThumb
    tag := jsTrim f.entryTag
    featured := f.entryFeatured }

/-- The loop `entries.forEach((en) => if (en.id !== id) en.featured = false)`. -/
def unmarkOthers (id : String) (entries : List Entry) : List Entry :=
  entries.map (fun en => if en.id ≠ id then { en with featured := false } else en)

/-- The statements `idx = entries.findIndex((en) => en.id === id)` and
`if (idx !== -1) entries[idx] = data`. -/
def replaceAtFound (id : String) (data : Entry) (entries : List Entry) : List Entry :=
  match entries.findIdx? (fun en => en.id == id) with
  | some idx => entries.set idx data
  | none => entries

/-- The entry sequence the submit handler leaves in `profile.entries`. -/
def submittedEntries (f : EntryForm) (uid : String) (entries : List Entry) : List Entry :=
  let data := entryData f uid
  let entries1 := if f.entryFeatured then unmarkOthers data.id entries else entries
  if f.entryEditId ≠ "" then replaceAtFound f.entryEditId data entries1
  else entries1 ++ [data]

/-- The submit handler of `entryForm`; `uid` is the value `uid()` returns when
it is called.  A value found on `Object.prototype` has no array under
`entries`, so the first array method called on it raises a `TypeError`, and
so does a record without `entries`. -/
def entrySubmit (st : AppState) (f : EntryForm) (uid : String) : Completion :=
  match st.entryEditUsername with
  | none => .normal st
  | some username =>
    if username = "" then .normal st
    else
      match getProfile st username with
      | .null => .normal st
      | .inherited _ =>
        if (entryData f uid).title = "" ∨ (entryData f uid).link = "" then .normal st
        else .thrown st
      | .record profile =>
        if (entryData f uid).title = "" ∨ (entryData f uid).link = "" then .normal st
        else
          match profile.entries with
          | none => .thrown st
          | some entries =>
            let profile1 := { profile with entries := some (submittedEntries f uid entries) }
            let st1 := setProfile st username profile1
            let st2 := toast st1 (if f.entryEditId ≠ "" then "Content updated" else "Content added")
            navigate st2 st2.hash

/-! ## Confirm dialog and the two delete actions -/

/-- The function `showConfirm`, as far as the state is concerned. -/
def showConfirm (st : AppState) (onConfirm : Pending) : AppState :=
  { st with confirmCallback := some onConfirm }

/-- The click handler of `confirmCancel`. -/
def confirmCancel (st : AppState) : AppState :=
  { st with confirmCallback := none }

/-- The body of an armed callback. -/
def runPending (st : AppState) : Pending → Completion
  | .deleteEntry username id =>
    match getProfile st username with
    | .null => .normal st
    | .inherited _ => .thrown st
    | .record p =>
      match p.entries with
      | none => .thrown st
      | some entries =>
        let p1 := { p with entries := some (entries.filter (fun en => en.id != id)) }
        let st1 := toast (setProfile st username p1) "Content deleted"
        match renderEditProfile st1 username with
        | .view _ => .normal st1
        | .typeError => .thrown st1
  | .deleteProfile username =>
    let st1 := clearSession (deleteProfile st username)
    let st2 := toast st1 "Profile deleted"
    .normal { st2 with hash := "#/" }

/-- The click handler of `confirmOk`: the armed callback runs, then the
variable is reset (which an exception in the callback skips). -/
def confirmOk (st : AppState) : Completion :=
  match st.confirmCallback with
  | none => .normal st
  | some cb =>
    match runPending st cb with
    | .normal st1 => .normal { st1 with confirmCallback := none }
    | .thrown st1 => .thrown st1

/-- The state after each submit of a sequence of entry-form submits, in
order. -/
def submitStates (st : AppState) : List (EntryForm × String) → List AppState
  | [] => []
  | s :: rest =>
    let st1 := (entrySubmit st s.1 s.2).state
    st1 :: submitStates st1 rest

/-! ## Header actions -/

/-- The click handler of `logoutBtn`: `clearSession()`, `renderHeader()`,
`navigate("#/")`. -/
def logout (st : AppState) : Completion :=
  navigate (clearSession st) "#/"

/-! ## Home view -/

/-- The test `s.includes(pat)` on character lists: `pat` occurs in `s`. -/
def includesChars (pat : List Char) : List Char → Bool
  | [] => pat.isEmpty
  | c :: cs => startsWith pat (c :: cs) || includesChars pat cs

/-- The method `String.prototype.includes`. -/
def jsIncludes (s pat : String) : Bool :=
  includesChars pat.data s.data

/-- One step of the sort: `a` goes in front of the first element it does not
have to follow (`cmp a b ≤ 0`). -/
def insertByCompare {α : Type} (cmp : α → α → Int) (a : α) : List α → List α
  | [] => [a]
  | b :: rest =>
    if cmp a b ≤ 0 then a :: b :: rest else b :: insertByCompare cmp a rest

/-- The method `Array.prototype.sort` with a comparator.  The sort is stable,
so with a consistent comparator the result is fixed: elements in ascending
order of the comparator, ties in their original order.  Insertion from the
right computes it. -/
def jsSort {α : Type} (cmp : α → α → Int) : List α → List α
  | [] => []
  | a :: rest => insertByCompare cmp a (jsSort cmp rest)

/-- The expression `all[k].createdAt || 0`, for a key `k` of `all`. -/
def createdAtOrZero (all : Obj) (k : String) : Nat :=
  match Obj.own all k with
  | some p => p.createdAt.getD 0
  | none => 0

/-- The callback of `filter` in `renderProfileList`, for a key `k` of `all`;
`toLowerCase` is the method `String.prototype.toLowerCase` of the platform.
An empty query keeps the key; otherwise the query is looked for in the
lowercased key, in `(p.name || "")` and in `(p.bio || "")`, lowercased. -/
def matchesQuery (toLowerCase : String → String) (all : Obj) (query k : String) : Bool :=
  if query = "" then true
  else
    match Obj.own all k with
    | some p =>
      jsIncludes (toLowerCase k) query ||
      jsIncludes (toLowerCase (p.name.getD "")) query ||
      jsIncludes (toLowerCase (p.bio.getD "")) query
    | none => jsIncludes (toLowerCase k) query

/-- The content `renderProfileList` writes into `homeProfiles`. -/
inductive HomeView where
  /-- The block "No profiles yet", with the Create Profile link. -/
  | noProfiles
  /-- The block "No profiles match your search", without a link. -/
  | noMatches
  /-- The heading and one list item per key, in this order. -/
  | list (keys : List String)
deriving DecidableEq, Repr

/-- The usernames the view lists. -/
def HomeView.listed : HomeView → List String
  | .list keys => keys
  | _ => []

/-- The function `renderProfileList`. -/
def renderProfileList (toLowerCase : String → String) (st : AppState) (query : String) :
    HomeView :=
  let all := loadProfiles st.profiles
  let keys :=
    jsSort (fun a b => (createdAtOrZero all b : Int) - (createdAtOrZero all a : Int))
      ((Obj.keys all).filter (matchesQuery toLowerCase all query))
  if keys.length = 0 ∧ query = "" then .noProfiles
  else if keys.length = 0 then .noMatches
  else .list keys

/-- The function `renderHome`, as far as the list is concerned. -/
def renderHome (toLowerCase : String → String) (st : AppState) : HomeView :=
  renderProfileList toLowerCase st ""

/-- The `input` handler of `homeSearch`; `value` is the text in the box. -/
def homeSearchInput (toLowerCase : String → String) (st : AppState) (value : String) :
    HomeView :=
  renderProfileList toLowerCase st (toLowerCase (jsTrim value))

/-- The entries the Public Profile view shows: the featured callout, then the
grid. -/
def PublicView.shown : PublicView → List Entry
  | .content _ _ featured others => featured.toList ++ others
  | _ => []

/-- The entry of the featured callout, if the view has one. -/
def PublicView.featured : PublicView → Option Entry
  | .content _ _ featured _ => featured
  | _ => none

/-- The entries of the grid. -/
def PublicView.others : PublicView → List Entry
  | .content _ _ _ others => others
  | _ => []

/-! ## Display of links -/

/-- The UTF-16 code units of a character: `length` and `slice` count these. -/
def codeUnits (c : Char) : List Nat :=
  if c.toNat < 0x10000 then [c.toNat]
  else [0xD800 + (c.toNat - 0x10000) / 0x400, 0xDC00 + (c.toNat - 0x10000) % 0x400]

/-- A string as the sequence of its UTF-16 code units. -/
def utf16 (s : String) : List Nat :=
  s.data.flatMap codeUnits

/-- The two properties of a parsed `URL` object that `truncateURL` reads. -/
structure URLParts where
  hostname : String
  pathname : String
deriving DecidableEq, Repr

/-- The code unit of the ellipsis marker, U+2026. -/
def ellipsis : Nat := 0x2026

/-- The expression `display.length > max ? display.slice(0, max) + "…" : display`. -/
def cutTo (display : List Nat) (max : Nat) : List Nat :=
  if display.length > max then display.take max ++ [ellipsis] else display

/-- The text `truncateURL` measures against `max`: `hostname + pathname`
without one trailing slash when the constructor `URL` accepts the string, the
string itself when the constructor throws. -/
def urlDisplay (parseURL : String → Option URLParts) (url : String) : List Nat :=
  match parseURL url with
  | some u =>
    let display := utf16 (u.hostname ++ u.pathname)
    if display.getLast? = some 0x2F then display.dropLast else display
  | none => utf16 url

/-- The function `truncateURL`; `parseURL` is the constructor `URL` of the
platform, `none` when it throws.  The result is given by its code units. -/
def truncateURL (parseURL : String → Option URLParts) (url : String) (max : Nat) : List Nat :=
  cutTo (urlDisplay parseURL url) max

/-! ## Slugs -/

/-- The class `[a-z0-9]` of the first pattern of `slugify`. -/
def isSlugAlnum (c : Char) : Bool :=
  (0x61 ≤ c.toNat && c.toNat ≤ 0x7A) || (0x30 ≤ c.toNat && c.toNat ≤ 0x39)

/-- The scan of `replace(/[^a-z0-9]+/g, "-")`; `inRun` tells that the
previous character belongs to a run that already gave its hyphen. -/
def collapseAux : Bool → List Char → List Char
  | _, [] => []
  | inRun, c :: cs =>
    if isSlugAlnum c then c :: collapseAux false cs
    else if inRun then collapseAux true cs
    else '-' :: collapseAux true cs

/-- The call `replace(/[^a-z0-9]+/g, "-")`: every maximal run of characters
outside `[a-z0-9]` becomes one hyphen. -/
def collapseRuns (l : List Char) : List Char :=
  collapseAux false l

/-- The call `replace(/^-|-$/g, "")`: a hyphen at the start is removed, and
then a hyphen at the end of what follows it. -/
def stripHyphens (l : List Char) : List Char :=
  let l1 := match l with
    | [] => []
    | c :: rest => if c = '-' then rest else c :: rest
  if l1.getLast? = some '-' then l1.dropLast else l1

/-- The function `slugify`; `toLowerCase` is the method
`String.prototype.toLowerCase` of the platform. -/
def slugify (toLowerCase : String → String) (str : String) : String :=
  ⟨stripHyphens (collapseRuns (jsTrim (toLowerCase str)).data)⟩

/-- The ASCII part of `toLowerCase`: `A` to `Z` become `a` to `z`, every other
character stays.  A sample of the platform method, used to evaluate the
definitions above. -/
def asciiLower (s : String) : String :=
  ⟨s.data.map (fun c => if 0x41 ≤ c.toNat ∧ c.toNat ≤ 0x5A then Char.ofNat (c.toNat + 0x20) else c)⟩

/-! ## Vocabulary of the properties -/

/-- The entry sequence of the profile stored under `username`, empty when
there is no such record or the record has no `entries`. -/
def storedEntries (st : AppState) (username : String) : List Entry :=
  match getProfile st username with
  | .record p => p.entries.getD []
  | _ => []

/-- The number of entries of the stored profile with `featured = true`. -/
def featuredCount (st : AppState) (username : String) : Nat :=
  (storedEntries st username).countP (fun e => e.featured)

/-- A submit that is an add whose generated id no entry has yet, or an edit
that carries the id of an existing entry. -/
def admissible (entries : List Entry) (s : EntryForm × String) : Bool :=
  (decide (s.1.entryEditId = "") && decide (s.2 ∉ entries.map (fun e => e.id))) ||
  (decide (s.1.entryEditId ≠ "") && decide (s.1.entryEditId ∈ entries.map (fun e => e.id)))

/-- The entry sequence the featured-submit property describes: the saved
entry with the submitted values, every other entry with `featured = false`
and otherwise as it was, in the stored order; an added entry comes last, an
edited entry keeps its place. -/
def featuredOutcome (f : EntryForm) (uid : String) (es : List Entry) : List Entry :=
  if f.entryEditId = "" then
    es.map (fun en => { en with featured := false }) ++ [entryData f uid]
  else
    es.map (fun en => if en.id = f.entryEditId then entryData f uid
      else { en with featured := false })

/-- Every submit of the sequence is admissible for the entries stored under
`username` at the time it is made. -/
def admissibleRun (username : String) : AppState → List (EntryForm × String) → Bool
  | _, [] => true
  | st, s :: rest =>
    admissible (storedEntries st username) s &&
    admissibleRun username (entrySubmit st s.1 s.2).state rest

/-- The text `q` occurs in the text `s` as a substring. -/
def OccursIn (q s : String) : Prop :=
  ∃ pre post : List Char, s.data = pre ++ q.data ++ post

/-- The profile `p` stored under the username `k` matches the query `q`: `q`
occurs in the lowercased username, in the lowercased display name or in the
lowercased bio, a missing name or bio counting as empty. -/
def Matches (toLowerCase : String → String) (q k : String) (p : Profile) : Prop :=
  OccursIn q (toLowerCase k) ∨ OccursIn q (toLowerCase (p.name.getD "")) ∨
  OccursIn q (toLowerCase (p.bio.getD ""))

/-- No hyphen of the list is followed by a hyphen. -/
def noDoubleHyphen : List Char → Bool
  | [] => true
  | [_] => true
  | a :: b :: rest => !(a == '-' && b == '-') && noDoubleHyphen (b :: rest)

/-- The session item is one the script can have written.  The script calls
`setSession` in one place, the Create handler, and only after `getProfile`
returned `null` for the username, which it never does for a property name of
`Object.prototype`; every other write of the item removes it. -/
def sessionByScript (st : AppState) : Bool :=
  match st.session with
  | none => true
  | some s => decide (s ∉ objectPrototypeKeys)

/-! ## Sample states -/

/-- The state of a first visit: nothing in `localStorage`, the variables of
the script at their initial `null`, an empty fragment. -/
def initialState : AppState :=
  { profiles := .absent, session := none, entryEditUsername := none,
    confirmCallback := none, hash := "", toasts := [] }

/-- Two entries, neither featured. -/
def entryA : Entry :=
  { id := "a", title := "Alpha", description := "", link := "https://a.example",
    thumbnail := "", tag := "", featured := false }

/-- The second entry. -/
def entryB : Entry :=
  { id := "b", title := "Beta", description := "", link := "https://b.example",
    thumbnail := "", tag := "", featured := false }

/-- The profile of the scenario: `jane-doe` with the entries A and B. -/
def janeProfile : Profile :=
  { name := some "Jane Doe", bio := some "", image := some "",
    entries := some [entryA, entryB], createdAt := some 7 }

/-- The owner of `jane-doe` on the Edit view, the entry editor opened. -/
def janeState : AppState :=
  { profiles := .mapping [("jane-doe", janeProfile)], session := some "jane-doe",
    entryEditUsername := some "jane-doe", confirmCallback := none,
    hash := "#/edit/jane-doe", toasts := [] }

/-- The entry form opened on A, with the featured box ticked. -/
def editAFeatured : EntryForm :=
  { entryEditId := "a", entryTitle := " Alpha ", entryDesc := "", entryLink := "https://a.example",
    entryThumb := "", entryTag := "", entryFeatured := true }

/-- The entry form opened for a new entry, with the featured box ticked. -/
def addFeatured : EntryForm :=
  { entryEditId := "", entryTitle := "Gamma", entryDesc := "", entryLink := "https://c.example",
    entryThumb := "", entryTag := "", entryFeatured := true }

/-- The state `janeState` with the given entries stored under `jane-doe`. -/
def janeWith (es : List Entry) : AppState :=
  { janeState with profiles := .mapping [("jane-doe", { janeProfile with entries := some es })] }

/-- Three submits on `jane-doe`: A is edited and featured, a new entry with
the generated id `c` is added and featured, B is edited and not featured. -/
def janeSubmits : List (EntryForm × String) :=
  [ (editAFeatured, "x1"),
    (addFeatured, "c"),
    ({ entryEditId := "b", entryTitle := "Beta 2", entryDesc := "", entryLink := "https://b.example",
       entryThumb := "", entryTag := "", entryFeatured := false }, "x3") ]

/-- A store of four profiles; two of them lack a name or a bio, one lacks
`createdAt`. -/
def homeSample : AppState :=
  { initialState with
    profiles := .mapping
      [ ("bob", ⟨some "Bob Builder", some "I build", none, none, some 5⟩),
        ("10", ⟨some "Ten", none, none, none, some 9⟩),
        ("alice", ⟨some "Alice", some "Painter and BUILDER", none, some [], none⟩),
        ("2", ⟨none, none, none, none, some 9⟩) ] }

/-- What the constructor `URL` returns for the one address of the example
below; every other string is left unparsed. -/
def sampleParseURL (url : String) : Option URLParts :=
  if url = "https://portfolio-showcase.example-studio.com/" then
    some { hostname := "portfolio-showcase.example-studio.com", pathname := "/" }
  else none

/-! ## The profiles object: lookups after updates -/



theorem own_eq_none_iff (m : Obj) (k : String) : Obj.own m k = none ↔ k ∉ Obj.keys m := by
  induction m with
  | nil => simp [Obj.own, Obj.keys]
  | cons kv rest ih =>
    obtain ⟨k1, v1⟩ := kv
    by_cases h : k1 = k
    · simp [Obj.own, Obj.keys, h]
    · have h2 : ¬ k = k1 := fun e => h e.symm
      simpa [Obj.own, Obj.keys, h, h2] using ih

theorem keys_overwrite (m : Obj) (k : String) (v : Profile) :
    Obj.keys (Obj.overwrite m k v) = Obj.keys m := by
  induction m with
  | nil => rfl
  | cons kv rest ih =>
    obtain ⟨k1, v1⟩ := kv
    by_cases h : k1 = k
    · simp [Obj.overwrite, Obj.keys, h]
    · simpa [Obj.overwrite, Obj.keys, h] using ih

theorem own_overwrite (m : Obj) (k : String) (v : Profile) (k2 : String)
    (h : Obj.own m k ≠ none) :
    Obj.own (Obj.overwrite m k v) k2 = if k2 = k then some v else Obj.own m k2 := by
  induction m with
  | nil => simp [Obj.own] at h
  | cons kv rest ih =>
    obtain ⟨k1, v1⟩ := kv
    by_cases h1 : k1 = k
    · subst h1
      by_cases h2 : k2 = k1
      · simp [Obj.overwrite, Obj.own, h2]
      · have h3 : ¬ k1 = k2 := fun e => h2 e.symm
        simp [Obj.overwrite, Obj.own, h2, h3]
    · have hrest : Obj.own rest k ≠ none := by simpa [Obj.own, h1] using h
      by_cases h2 : k1 = k2
      · subst h2
        simp [Obj.overwrite, Obj.own, h1]
      · simp [Obj.overwrite, Obj.own, h1, h2, ih hrest]

theorem own_insertIndex (n : Nat) (m : Obj) (k : String) (v : Profile) (k2 : String)
    (h : Obj.own m k = none) :
    Obj.own (Obj.insertIndex n k v m) k2 = if k2 = k then some v else Obj.own m k2 := by
  induction m with
  | nil =>
    by_cases h2 : k2 = k
    · simp [Obj.insertIndex, Obj.own, h2]
    · have h3 : ¬ k = k2 := fun e => h2 e.symm
      simp [Obj.insertIndex, Obj.own, h2, h3]
  | cons kv rest ih =>
    obtain ⟨k1, v1⟩ := kv
    have h1 : ¬ k1 = k := by
      intro e
      simp [Obj.own, e] at h
    have hrest : Obj.own rest k = none := by simpa [Obj.own, h1] using h
    have hfront : Obj.own ((k, v) :: (k1, v1) :: rest) k2
        = if k2 = k then some v else Obj.own ((k1, v1) :: rest) k2 := by
      by_cases h2 : k2 = k
      · simp [Obj.own, h2]
      · have h3 : ¬ k = k2 := fun e => h2 e.symm
        simp [Obj.own, h2, h3]
    unfold Obj.insertIndex
    cases hidx : arrayIndex? k1 with
    | none => simpa using hfront
    | some n1 =>
      by_cases hlt : n1 < n
      · simp only [hlt, if_true]
        by_cases h2 : k1 = k2
        · subst h2
          simp [Obj.own, h1]
        · simp [Obj.own, h2, ih hrest]
      · simpa [hlt] using hfront

theorem own_append_single (m : Obj) (k : String) (v : Profile) (k2 : String)
    (h : Obj.own m k = none) :
    Obj.own (m ++ [(k, v)]) k2 = if k2 = k then some v else Obj.own m k2 := by
  induction m with
  | nil =>
    by_cases h2 : k2 = k
    · simp [Obj.own, h2]
    · have h3 : ¬ k = k2 := fun e => h2 e.symm
      simp [Obj.own, h2, h3]
  | cons kv rest ih =>
    obtain ⟨k1, v1⟩ := kv
    have h1 : ¬ k1 = k := by
      intro e
      simp [Obj.own, e] at h
    have hrest : Obj.own rest k = none := by simpa [Obj.own, h1] using h
    by_cases h2 : k1 = k2
    · subst h2
      simp [Obj.own, h1]
    · simp [Obj.own, h2, ih hrest]

theorem own_addNew (m : Obj) (k : String) (v : Profile) (k2 : String)
    (h : Obj.own m k = none) :
    Obj.own (Obj.addNew m k v) k2 = if k2 = k then some v else Obj.own m k2 := by
  unfold Obj.addNew
  cases arrayIndex? k with
  | none => exact own_append_single m k v k2 h
  | some n => exact own_insertIndex n m k v k2 h

theorem own_define (m : Obj) (k : String) (v : Profile) (k2 : String) :
    Obj.own (Obj.define m k v) k2 = if k2 = k then some v else Obj.own m k2 := by
  unfold Obj.define
  cases h : Obj.own m k with
  | none => exact own_addNew m k v k2 h
  | some p => exact own_overwrite m k v k2 (by simp [h])

theorem own_assign (m : Obj) (k : String) (v : Profile) (k2 : String)
    (h : k ≠ "__proto__" ∨ Obj.own m k ≠ none) :
    Obj.own (Obj.assign m k v) k2 = if k2 = k then some v else Obj.own m k2 := by
  unfold Obj.assign
  cases h1 : Obj.own m k with
  | none =>
    have hk : k ≠ "__proto__" := by
      rcases h with h | h
      · exact h
      · exact absurd h1 h
    simp only [hk, if_false]
    exact own_addNew m k v k2 h1
  | some p => exact own_overwrite m k v k2 (by simp [h1])

theorem own_assign_of_ne (m : Obj) (k : String) (v : Profile) (k2 : String) (h : k2 ≠ k) :
    Obj.own (Obj.assign m k v) k2 = Obj.own m k2 := by
  unfold Obj.assign
  cases h1 : Obj.own m k with
  | none =>
    by_cases hk : k = "__proto__"
    · simp [hk]
    · simp only [hk, if_false]
      rw [own_addNew m k v k2 h1]
      simp [h]
  | some p =>
    rw [own_overwrite m k v k2 (by simp [h1])]
    simp [h]

theorem own_delete (m : Obj) (k k2 : String) :
    Obj.own (Obj.delete m k) k2 = if k2 = k then none else Obj.own m k2 := by
  induction m with
  | nil => simp [Obj.delete, Obj.own]
  | cons kv rest ih =>
    obtain ⟨k1, v1⟩ := kv
    unfold Obj.delete at ih ⊢
    by_cases h1 : k1 = k
    · subst h1
      by_cases h2 : k2 = k1
      · simp [h2] at ih ⊢
        exact ih
      · have h3 : ¬ k1 = k2 := fun e => h2 e.symm
        simp [h2, Obj.own, h3] at ih ⊢
        exact ih
    · by_cases h2 : k1 = k2
      · subst h2
        simp [h1, Obj.own]
      · simp [h1, Obj.own, h2]
        exact ih

/-! ## The profiles object: names stay distinct -/

theorem keys_insertIndex_perm (n : Nat) (m : Obj) (k : String) (v : Profile) :
    (Obj.keys (Obj.insertIndex n k v m)).Perm (k :: Obj.keys m) := by
  induction m with
  | nil => simp [Obj.insertIndex, Obj.keys]
  | cons kv rest ih =>
    obtain ⟨k1, v1⟩ := kv
    unfold Obj.insertIndex
    cases arrayIndex? k1 with
    | none => simp [Obj.keys]
    | some n1 =>
      by_cases hlt : n1 < n
      · simp only [hlt, if_true]
        have h1 : Obj.keys ((k1, v1) :: Obj.insertIndex n k v rest)
            = k1 :: Obj.keys (Obj.insertIndex n k v rest) := rfl
        have h2 : Obj.keys ((k1, v1) :: rest) = k1 :: Obj.keys rest := rfl
        rw [h1, h2]
        exact (List.Perm.cons k1 ih).trans (List.Perm.swap k k1 (Obj.keys rest))
      · simp [hlt, Obj.keys]

theorem keys_addNew_perm (m : Obj) (k : String) (v : Profile) :
    (Obj.keys (Obj.addNew m k v)).Perm (k :: Obj.keys m) := by
  unfold Obj.addNew
  cases arrayIndex? k with
  | none =>
    have : Obj.keys (m ++ [(k, v)]) = Obj.keys m ++ [k] := by simp [Obj.keys]
    rw [this]
    exact List.perm_append_singleton k (Obj.keys m)
  | some n => exact keys_insertIndex_perm n m k v

theorem nodup_keys_addNew (m : Obj) (k : String) (v : Profile)
    (hm : (Obj.keys m).Nodup) (hk : Obj.own m k = none) :
    (Obj.keys (Obj.addNew m k v)).Nodup := by
  have hnot : k ∉ Obj.keys m := (own_eq_none_iff m k).1 hk
  exact (keys_addNew_perm m k v).nodup_iff.2 (List.nodup_cons.2 ⟨hnot, hm⟩)

theorem nodup_keys_define (m : Obj) (k : String) (v : Profile) (hm : (Obj.keys m).Nodup) :
    (Obj.keys (Obj.define m k v)).Nodup := by
  unfold Obj.define
  cases h : Obj.own m k with
  | none => exact nodup_keys_addNew m k v hm h
  | some p => simpa [keys_overwrite] using hm

theorem nodup_keys_assign (m : Obj) (k : String) (v : Profile) (hm : (Obj.keys m).Nodup) :
    (Obj.keys (Obj.assign m k v)).Nodup := by
  unfold Obj.assign
  cases h : Obj.own m k with
  | none =>
    by_cases hk : k = "__proto__"
    · simpa [hk] using hm
    · simp only [hk, if_false]
      exact nodup_keys_addNew m k v hm h
  | some p => simpa [keys_overwrite] using hm

theorem nodup_keys_delete (m : Obj) (k : String) (hm : (Obj.keys m).Nodup) :
    (Obj.keys (Obj.delete m k)).Nodup := by
  unfold Obj.delete Obj.keys at *
  exact (List.Sublist.map Prod.fst (List.filter_sublist m)).nodup hm

theorem nodup_keys_foldl_define (l : List (String × Profile)) (acc : Obj)
    (hacc : (Obj.keys acc).Nodup) :
    (Obj.keys (l.foldl (fun m kv => Obj.define m kv.1 kv.2) acc)).Nodup := by
  induction l generalizing acc with
  | nil => simpa using hacc
  | cons kv rest ih =>
    simp only [List.foldl_cons]
    exact ih _ (nodup_keys_define acc kv.1 kv.2 hacc)

theorem nodup_keys_loadProfiles (b : Blob) : (Obj.keys (loadProfiles b)).Nodup := by
  cases b with
  | absent => simp [loadProfiles, Obj.keys]
  | corrupt => simp [loadProfiles, Obj.keys]
  | mapping members =>
    exact nodup_keys_foldl_define members [] (by simp [Obj.keys])

theorem own_foldl_define (l : List (String × Profile)) (hl : (Obj.keys l).Nodup)
    (acc : Obj) (k : String) :
    Obj.own (l.foldl (fun m kv => Obj.define m kv.1 kv.2) acc) k
      = match Obj.own l k with
        | some v => some v
        | none => Obj.own acc k := by
  induction l generalizing acc with
  | nil => simp [Obj.own]
  | cons kv rest ih =>
    obtain ⟨k1, v1⟩ := kv
    have hn : k1 ∉ Obj.keys rest ∧ (Obj.keys rest).Nodup := by
      simpa [Obj.keys] using hl
    simp only [List.foldl_cons]
    rw [ih hn.2, own_define]
    by_cases h1 : k1 = k
    · subst h1
      have : Obj.own rest k1 = none := (own_eq_none_iff rest k1).2 hn.1
      simp [Obj.own, this]
    · have h2 : ¬ k = k1 := fun e => h1 e.symm
      simp [Obj.own, h1, h2]

theorem own_loadProfiles_saveProfiles (m : Obj) (hm : (Obj.keys m).Nodup) (k : String) :
    Obj.own (loadProfiles (saveProfiles m)) k = Obj.own m k := by
  unfold loadProfiles saveProfiles
  simp only
  rw [own_foldl_define m hm [] k]
  cases Obj.own m k <;> simp [Obj.own]

/-! ## Router -/


theorem startsWith_append (p u : List Char) : startsWith p (p ++ u) = true := by
  induction p with
  | nil => simp [startsWith]
  | cons c cs ih => simp [startsWith, ih]

theorem startsWith_iff (p s : List Char) : startsWith p s = true ↔ ∃ u, s = p ++ u := by
  induction p generalizing s with
  | nil => simp [startsWith]
  | cons c cs ih =>
    cases s with
    | nil => simp [startsWith]
    | cons d ds =>
      simp only [startsWith, Bool.and_eq_true, beq_iff_eq, ih, List.cons_append, List.cons.injEq]
      constructor
      · rintro ⟨rfl, u, rfl⟩
        exact ⟨u, rfl, rfl⟩
      · rintro ⟨u, rfl, rfl⟩
        exact ⟨rfl, u, rfl⟩

theorem replaceFirst_append (c : Char) (cs u : List Char) :
    replaceFirst (c :: cs) [] ((c :: cs) ++ u) = u := by
  have h := startsWith_append (c :: cs) u
  simp only [List.cons_append] at h ⊢
  unfold replaceFirst
  simp only [h, if_true, List.nil_append]
  have : (c :: (cs ++ u)).drop (c :: cs).length = u := by
    exact List.drop_left (c :: cs) u
  exact this

theorem route_edit (u : String) : route ("#/edit/" ++ u) = .edit u := by
  have hd : ("#/edit/" ++ u).data = ['#', '/', 'e', 'd', 'i', 't', '/'] ++ u.data := by
    rw [String.data_append]
  have h1 : ("#/edit/" ++ u) ≠ "" := by
    intro e; have := congrArg String.data e; rw [hd] at this; simp at this
  have h2 : ("#/edit/" ++ u) ≠ "#" := by
    intro e; have := congrArg String.data e; rw [hd] at this; simp at this
  have h3 : ("#/edit/" ++ u) ≠ "#/" := by
    intro e; have := congrArg String.data e; rw [hd] at this; simp at this
  have h4 : ("#/edit/" ++ u) ≠ "#/create" := by
    intro e; have := congrArg String.data e; rw [hd] at this; simp at this
  have h5 : jsStartsWith ("#/edit/" ++ u) "#/edit/" = true := by
    unfold jsStartsWith
    rw [hd]
    exact startsWith_append _ _
  have h6 : jsReplace ("#/edit/" ++ u) "#/edit/" "" = u := by
    unfold jsReplace
    rw [hd]
    have := replaceFirst_append '#' ['/', 'e', 'd', 'i', 't', '/'] u.data
    show String.mk (replaceFirst ['#', '/', 'e', 'd', 'i', 't', '/'] [] _) = u
    rw [this]
  unfold route
  simp [h1, h2, h3, h4, h5, h6]


theorem route_public (u : String) (h0 : u ≠ "") (hc : u ≠ "create")
    (he : ∀ w : String, u ≠ "edit/" ++ w) : route ("#/" ++ u) = .publicProfile u := by
  have hd : ("#/" ++ u).data = ['#', '/'] ++ u.data := by
    rw [String.data_append]
  have hu : u.data ≠ [] := by
    intro e; apply h0; exact String.ext e
  have h1 : ("#/" ++ u) ≠ "" := by
    intro e; have := congrArg String.data e; rw [hd] at this; simp at this
  have h2 : ("#/" ++ u) ≠ "#" := by
    intro e; have := congrArg String.data e; rw [hd] at this; simp at this
  have h3 : ("#/" ++ u) ≠ "#/" := by
    intro e; have := congrArg String.data e; rw [hd] at this
    have h : u.data = [] := by simpa using this
    exact hu h
  have h4 : ("#/" ++ u) ≠ "#/create" := by
    intro e; have := congrArg String.data e; rw [hd] at this
    have h : u.data = "create".data := by simpa using this
    exact hc (String.ext h)
  have h5 : jsStartsWith ("#/" ++ u) "#/edit/" = false := by
    cases hs : jsStartsWith ("#/" ++ u) "#/edit/" with
    | false => rfl
    | true =>
      exfalso
      unfold jsStartsWith at hs
      rw [hd] at hs
      obtain ⟨w, hw⟩ := (startsWith_iff _ _).1 hs
      have hw2 : u.data = ("edit/" ++ String.mk w).data := by
        rw [String.data_append]
        have : ("#/edit/" : String).data = ['#', '/', 'e', 'd', 'i', 't', '/'] := rfl
        rw [this] at hw
        simp at hw
        rw [hw]
        rfl
      exact he (String.mk w) (String.ext hw2)
  have h6 : jsStartsWith ("#/" ++ u) "#/" = true := by
    unfold jsStartsWith
    rw [hd]
    exact startsWith_append _ _
  have h7 : jsReplace ("#/" ++ u) "#/" "" = u := by
    unfold jsReplace
    rw [hd]
    have := replaceFirst_append '#' ['/'] u.data
    show String.mk (replaceFirst ['#', '/'] [] _) = u
    rw [this]
  unfold route
  simp [h1, h2, h3, h4, h5, h6, h7]

theorem route_other (h : String) (hs : ∀ u : String, h ≠ "#/" ++ u) : route h = .home := by
  have h1 : ∀ p : String, jsStartsWith h ("#/" ++ p) = false := by
    intro p
    cases hp : jsStartsWith h ("#/" ++ p) with
    | false => rfl
    | true =>
      exfalso
      unfold jsStartsWith at hp
      obtain ⟨w, hw⟩ := (startsWith_iff _ _).1 hp
      apply hs (p ++ String.mk w)
      apply String.ext
      rw [hw]
      simp [String.data_append]
  have h2 : jsStartsWith h "#/edit/" = false := h1 "edit/"
  have h3 : jsStartsWith h "#/" = false := h1 ""
  have h4 : h ≠ "#/create" := hs "create"
  unfold route
  simp [h2, h3, h4]

/-- C9. For every fragment `h` the router selects one view: Home when `h` is
empty, `#` or `#/`; Create when `h` is `#/create`; Edit of `u` when `h` is
`#/edit/` followed by `u`; the public profile of `u` when `h` is `#/` followed
by a non-empty `u` that is neither `create` nor begins with `edit/`; Home for
every `h` that does not begin with `#/`.  The username handed on is `h`
without the matched beginning. -/
theorem navigate_selects_view (h : String) :
    ((h = "" ∨ h = "#" ∨ h = "#/") → route h = .home) ∧
    (h = "#/create" → route h = .create) ∧
    (∀ u : String, h = "#/edit/" ++ u → route h = .edit u) ∧
    (∀ u : String, h = "#/" ++ u → u ≠ "" → u ≠ "create" →
      (∀ w : String, u ≠ "edit/" ++ w) → route h = .publicProfile u) ∧
    ((∀ u : String, h ≠ "#/" ++ u) → route h = .home) := by
  refine ⟨?_, ?_, ?_, ?_, ?_⟩
  · intro h0
    unfold route
    simp [h0]
  · intro h0
    subst h0
    decide
  · intro u hu
    subst hu
    exact route_edit u
  · intro u hu h0 hc he
    subst hu
    exact route_public u h0 hc he
  · intro hs
    exact route_other h hs

/-! ## Record store -/


theorem own_load_setProfile (st : AppState) (u : String) (p : Profile) (k : String)
    (h : u ≠ "__proto__" ∨ Obj.own (loadProfiles st.profiles) u ≠ none) :
    Obj.own (loadProfiles (setProfile st u p).profiles) k
      = if k = u then some p else Obj.own (loadProfiles st.profiles) k := by
  unfold setProfile
  simp only
  rw [own_loadProfiles_saveProfiles _
    (nodup_keys_assign _ u p (nodup_keys_loadProfiles st.profiles))]
  exact own_assign _ u p k h

theorem own_load_setProfile_of_ne (st : AppState) (u : String) (p : Profile) (k : String)
    (h : k ≠ u) :
    Obj.own (loadProfiles (setProfile st u p).profiles) k
      = Obj.own (loadProfiles st.profiles) k := by
  unfold setProfile
  simp only
  rw [own_loadProfiles_saveProfiles _
    (nodup_keys_assign _ u p (nodup_keys_loadProfiles st.profiles))]
  exact own_assign_of_ne _ u p k h

theorem own_load_deleteProfile (st : AppState) (u k : String) :
    Obj.own (loadProfiles (deleteProfile st u).profiles) k
      = if k = u then none else Obj.own (loadProfiles st.profiles) k := by
  unfold deleteProfile
  simp only
  rw [own_loadProfiles_saveProfiles _
    (nodup_keys_delete _ u (nodup_keys_loadProfiles st.profiles))]
  exact own_delete _ u k

theorem getProfile_eq_record_iff (st : AppState) (u : String) (p : Profile) :
    getProfile st u = .record p ↔ Obj.own (loadProfiles st.profiles) u = some p := by
  unfold getProfile Obj.get
  cases h : Obj.own (loadProfiles st.profiles) u with
  | none =>
    by_cases hk : u ∈ objectPrototypeKeys <;> simp [hk]
  | some q => simp

theorem getProfile_congr (st1 st2 : AppState) (u : String)
    (h : Obj.own (loadProfiles st1.profiles) u = Obj.own (loadProfiles st2.profiles) u) :
    getProfile st1 u = getProfile st2 u := by
  unfold getProfile Obj.get
  rw [h]

theorem getProfile_of_profiles_eq (st1 st2 : AppState) (u : String)
    (h : st1.profiles = st2.profiles) : getProfile st1 u = getProfile st2 u := by
  unfold getProfile
  rw [h]

theorem getProfile_setProfile_of_ne (st : AppState) (u : String) (p : Profile) (v : String)
    (h : v ≠ u) : getProfile (setProfile st u p) v = getProfile st v :=
  getProfile_congr _ _ v (own_load_setProfile_of_ne st u p v h)

theorem getProfile_setProfile_same (st : AppState) (u : String) (p : Profile)
    (h : u ≠ "__proto__" ∨ Obj.own (loadProfiles st.profiles) u ≠ none) :
    getProfile (setProfile st u p) u = .record p := by
  rw [getProfile_eq_record_iff, own_load_setProfile st u p u h]
  simp

theorem ne_proto_of_isUsername (u : String) (hu : isUsername u = true) : u ≠ "__proto__" := by
  intro e
  subst e
  revert hu
  decide

/-- C3. Round trip of the record store: for every state of the store, every
username `u` (a string the username input accepts) and every profile `p`,
`setProfile(u, p)` followed by `getProfile(u)` returns the record `p`, equal
to `p` in every field. -/
theorem setProfile_getProfile_roundtrip (st : AppState) (u : String) (p : Profile)
    (hu : isUsername u = true) :
    getProfile (setProfile st u p) u = .record p :=
  getProfile_setProfile_same st u p (Or.inl (ne_proto_of_isUsername u hu))

/-- The round trip on a store whose text does not parse. -/
theorem setProfile_getProfile_roundtrip_witness :
    isUsername "jane-doe" = true ∧
    getProfile (setProfile ⟨.corrupt, none, none, none, "", []⟩ "jane-doe"
        ⟨some "Jane Doe", some "", none, some [⟨"a", "t", "", "l", "", "", true⟩], some 7⟩) "jane-doe"
      = .record ⟨some "Jane Doe", some "", none, some [⟨"a", "t", "", "l", "", "", true⟩], some 7⟩ :=
  ⟨by decide, setProfile_getProfile_roundtrip _ _ _ (by decide)⟩

/-! ## Create form -/


theorem getProfile_eq_null_iff (st : AppState) (u : String) :
    getProfile st u = .null ↔
      Obj.own (loadProfiles st.profiles) u = none ∧ u ∉ objectPrototypeKeys := by
  unfold getProfile Obj.get
  cases h : Obj.own (loadProfiles st.profiles) u with
  | none =>
    by_cases hk : u ∈ objectPrototypeKeys <;> simp [hk]
  | some q => simp

/-- C5. For every store that holds a record under the username `u` the
Create form is submitted with, and every submitted name, bio and image, the
submit leaves the stored item, the session and the fragment as they were: the
existing record keeps every field and entry and no session is established. -/
theorem create_taken_username_unchanged (st : AppState) (f : CreateForm) (now : Nat)
    (u : String) (p : Profile)
    (hu : jsTrim f.createUsername = u) (hp : getProfile st u = .record p) :
    (createSubmit st f now).profiles = st.profiles ∧
    (createSubmit st f now).session = st.session ∧
    (createSubmit st f now).hash = st.hash := by
  unfold createSubmit
  simp only [hu]
  by_cases hb : u = "" ∨ jsTrim f.createName = ""
  · simp [hb]
  · simp only [hb, if_false, hp]
    simp [toast]

/-- Create with the taken username `jane-doe`: store, session and fragment
stay. -/
theorem create_taken_username_unchanged_witness :
    let st : AppState :=
      { profiles := .mapping [("jane-doe", ⟨some "Jane", some "", some "", some [⟨"a", "t", "", "l", "", "", true⟩], some 7⟩)]
        session := none, entryEditUsername := none, confirmCallback := none,
        hash := "#/create", toasts := [] }
    let f : CreateForm := ⟨"jane-doe", "Impostor", "bio", ""⟩
    jsTrim f.createUsername = "jane-doe" ∧
    (createSubmit st f 9).profiles = st.profiles ∧
    (createSubmit st f 9).session = st.session ∧
    (createSubmit st f 9).hash = st.hash :=
  ⟨by decide, create_taken_username_unchanged _ _ 9 "jane-doe"
    ⟨some "Jane", some "", some "", some [⟨"a", "t", "", "l", "", "", true⟩], some 7⟩
    (by decide) (by decide)⟩

/-- Create with a username under which `getProfile` finds nothing: the new
profile is stored with the submitted name, bio and image, no entries and the
current time, the session is the username, and the fragment is the Edit
address. -/
theorem create_free_username (st : AppState) (f : CreateForm) (now : Nat)
    (hu : jsTrim f.createUsername ≠ "") (hn : jsTrim f.createName ≠ "")
    (hfree : getProfile st (jsTrim f.createUsername) = .null) :
    getProfile (createSubmit st f now) (jsTrim f.createUsername)
      = .record { name := some (jsTrim f.createName), bio := some (jsTrim f.createBio),
                  image := some (jsTrim f.createImage), entries := some [],
                  createdAt := some now } ∧
    getSession (createSubmit st f now) = some (jsTrim f.createUsername) ∧
    (createSubmit st f now).hash = "#/edit/" ++ jsTrim f.createUsername := by
  have hne : jsTrim f.createUsername ≠ "__proto__" := by
    intro e
    rw [e] at hfree
    have := (getProfile_eq_null_iff st "__proto__").1 hfree
    exact this.2 (by decide)
  unfold createSubmit
  simp only [hu, hn, or_self, if_false, hfree]
  refine ⟨?_, ?_, ?_⟩
  · have := getProfile_setProfile_same st (jsTrim f.createUsername)
      { name := some (jsTrim f.createName), bio := some (jsTrim f.createBio),
        image := some (jsTrim f.createImage), entries := some [],
        createdAt := some now } (Or.inl hne)
    rw [← this]
    apply getProfile_of_profiles_eq
    simp [toast, setSession]
  · simp [getSession, toast, setSession, hu]
  · trivial

/-- C4. The Create form submitted on a first visit with the username
`constructor` and the name `Jane Doe`: both are non-empty, the input accepts
the username, there is no session and no record under the username, and yet
the handler only reports that the username is taken.  No record is stored, no
session is set and the fragment stays. -/
theorem create_constructor_refused :
    let f : CreateForm := ⟨"constructor", "Jane Doe", "", ""⟩
    isUsername f.createUsername = true ∧
    jsTrim f.createUsername ≠ "" ∧ jsTrim f.createName ≠ "" ∧
    getSession initialState = none ∧
    Obj.own (loadProfiles initialState.profiles) (jsTrim f.createUsername) = none ∧
    createSubmit initialState f 1700000000000
      = toast initialState "Username already taken. Choose another." ∧
    Obj.own (loadProfiles (createSubmit initialState f 1700000000000).profiles) "constructor" = none ∧
    getSession (createSubmit initialState f 1700000000000) = none ∧
    (createSubmit initialState f 1700000000000).hash = initialState.hash := by
  decide

/-! ## Delete Content -/


theorem length_filter_ne_id (es : List Entry) (d : String)
    (hn : (es.map (fun e => e.id)).Nodup) (hd : d ∈ es.map (fun e => e.id)) :
    (es.filter (fun en => en.id != d)).length + 1 = es.length := by
  induction es with
  | nil => simp at hd
  | cons e rest ih =>
    have hn2 : e.id ∉ rest.map (fun e => e.id) ∧ (rest.map (fun e => e.id)).Nodup := by
      simpa using hn
    by_cases he : e.id = d
    · have hall : rest.filter (fun en => en.id != d) = rest := by
        apply List.filter_eq_self.2
        intro a ha
        have : a.id ≠ d := by
          intro e2
          apply hn2.1
          rw [he, ← e2]
          exact List.mem_map_of_mem (fun e => e.id) ha
        simpa using this
      have hf : (e :: rest).filter (fun en => en.id != d)
          = rest.filter (fun en => en.id != d) := by
        simp [List.filter_cons, he]
      rw [hf, hall]
      rfl
    · have hd2 : d ∈ rest.map (fun e => e.id) := by
        have : d = e.id ∨ d ∈ rest.map (fun e => e.id) := by simpa using hd
        rcases this with h | h
        · exact absurd h.symm he
        · exact h
      have := ih hn2.2 hd2
      have hf : (e :: rest).filter (fun en => en.id != d)
          = e :: rest.filter (fun en => en.id != d) := by
        simp [List.filter_cons, he]
      rw [hf]
      simp only [List.length_cons]
      omega

theorem renderEditProfile_of_record (st : AppState) (u : String) (p : Profile)
    (hp : getProfile st u = .record p) :
    renderEditProfile st u ≠ .typeError := by
  unfold renderEditProfile
  by_cases hs : getSession st = some u
  · simp only [hs, ne_eq, not_true_eq_false, if_false, hp, Found.entries]
    cases p.entries <;> simp
  · simp [hs]

/-- C7. For every stored profile `p` with entry sequence `es` and every
entry id `d`, confirming Delete Content for `d` returns and persists the
record `p` with the entries of `es` whose id differs from `d`, in their order
and unchanged, name, bio, image and createdAt being those of `p`; what
`getProfile` returns for every other username is unchanged; and when the ids
of `es` are pairwise distinct and `d` is among them, exactly one entry is
removed. -/
theorem delete_entry_removes_only_that_id (st : AppState) (u d : String) (p : Profile)
    (es : List Entry)
    (harm : st.confirmCallback = some (.deleteEntry u d))
    (hp : getProfile st u = .record p) (hes : p.entries = some es) :
    confirmOk st = .normal (confirmOk st).state ∧
    getProfile (confirmOk st).state u
      = .record { p with entries := some (es.filter (fun en => en.id != d)) } ∧
    (∀ v : String, v ≠ u → getProfile (confirmOk st).state v = getProfile st v) ∧
    ((es.map (fun e => e.id)).Nodup → d ∈ es.map (fun e => e.id) →
      (es.filter (fun en => en.id != d)).length + 1 = es.length) := by
  have hown : Obj.own (loadProfiles st.profiles) u ≠ none := by
    rw [(getProfile_eq_record_iff st u p).1 hp]
    simp
  let p1 : Profile := { p with entries := some (es.filter (fun en => en.id != d)) }
  let st1 : AppState := toast (setProfile st u p1) "Content deleted"
  have hst1 : getProfile st1 u = .record p1 := by
    rw [getProfile_of_profiles_eq st1 (setProfile st u p1) u rfl]
    exact getProfile_setProfile_same st u p1 (Or.inr hown)
  have hother : ∀ v : String, v ≠ u → getProfile st1 v = getProfile st v := by
    intro v hv
    rw [getProfile_of_profiles_eq st1 (setProfile st u p1) v rfl]
    exact getProfile_setProfile_of_ne st u p1 v hv
  have hrender := renderEditProfile_of_record st1 u p1 hst1
  have hrun : confirmOk st = .normal { st1 with confirmCallback := none } := by
    unfold confirmOk
    simp only [harm, runPending, hp, hes]
    cases hr : renderEditProfile st1 u with
    | typeError => exact absurd hr hrender
    | view v =>
      have hr2 : renderEditProfile (toast (setProfile st u p1) "Content deleted") u
          = .view v := hr
      simp only [p1] at hr2
      simp [hr2, st1, p1]
  rw [hrun]
  refine ⟨rfl, ?_, ?_, ?_⟩
  · exact (getProfile_of_profiles_eq _ st1 u rfl).trans hst1
  · intro v hv
    exact (getProfile_of_profiles_eq _ st1 v rfl).trans (hother v hv)
  · exact length_filter_ne_id es d


/-- Delete Content for A on the scenario profile: B alone remains. -/
theorem delete_entry_removes_only_that_id_witness :
    let st : AppState := { janeState with confirmCallback := some (.deleteEntry "jane-doe" "a") }
    st.confirmCallback = some (.deleteEntry "jane-doe" "a") ∧
    getProfile st "jane-doe" = .record janeProfile ∧
    janeProfile.entries = some [entryA, entryB] ∧
    confirmOk st = .normal (confirmOk st).state ∧
    getProfile (confirmOk st).state "jane-doe"
      = .record { janeProfile with entries := some [entryB] } :=
  ⟨rfl, by decide, rfl,
   (delete_entry_removes_only_that_id
      { janeState with confirmCallback := some (.deleteEntry "jane-doe" "a") }
      "jane-doe" "a" janeProfile [entryA, entryB] rfl (by decide) rfl).1,
   (delete_entry_removes_only_that_id
      { janeState with confirmCallback := some (.deleteEntry "jane-doe" "a") }
      "jane-doe" "a" janeProfile [entryA, entryB] rfl (by decide) rfl).2.1⟩

/-! ## Delete Profile, Public Profile view, Edit view -/


/-- Confirming Delete Profile for `u`: the handler returns, the own record of
`u` is gone from the stored mapping, what `getProfile` returns for every other
username is unchanged, the session is absent and the fragment is `#/`.  When
`u` is not a property name of `Object.prototype`, `getProfile(u)` is absent
afterwards. -/
theorem delete_profile_effect (st : AppState) (u : String)
    (harm : st.confirmCallback = some (.deleteProfile u)) :
    confirmOk st = .normal (confirmOk st).state ∧
    Obj.own (loadProfiles (confirmOk st).state.profiles) u = none ∧
    (u ∉ objectPrototypeKeys → getProfile (confirmOk st).state u = .null) ∧
    (∀ v : String, v ≠ u → getProfile (confirmOk st).state v = getProfile st v) ∧
    getSession (confirmOk st).state = none ∧
    (confirmOk st).state.hash = "#/" := by
  have hrun : confirmOk st = .normal
      { ({ toast (clearSession (deleteProfile st u)) "Profile deleted" with hash := "#/" } : AppState)
        with confirmCallback := none } := by
    unfold confirmOk
    simp only [harm, runPending]
  have hprof : (confirmOk st).state.profiles = (deleteProfile st u).profiles := by
    rw [hrun]
    rfl
  have hown : ∀ k : String, Obj.own (loadProfiles (confirmOk st).state.profiles) k
      = if k = u then none else Obj.own (loadProfiles st.profiles) k := by
    intro k
    rw [hprof]
    exact own_load_deleteProfile st u k
  have hself : Obj.own (loadProfiles (confirmOk st).state.profiles) u = none := by
    rw [hown u]
    simp
  refine ⟨?_, hself, ?_, ?_, ?_, ?_⟩
  · rw [hrun]
    rfl
  · intro hu
    exact (getProfile_eq_null_iff _ u).2 ⟨hself, hu⟩
  · intro v hv
    apply getProfile_congr
    rw [hown v]
    simp [hv]
  · rw [hrun]
    rfl
  · rw [hrun]
    rfl

/-- Outside the states the script writes: with a record and a session item
named `constructor` put into storage by other means, Delete Profile removes
the own record and the session, and `getProfile` still returns the member of
`Object.prototype` for that name. -/
theorem delete_profile_constructor_still_found :
    let st : AppState :=
      { profiles := .mapping [("constructor", janeProfile)], session := some "constructor",
        entryEditUsername := none, confirmCallback := some (.deleteProfile "constructor"),
        hash := "#/edit/constructor", toasts := [] }
    isUsername "constructor" = true ∧
    getSession st = some "constructor" ∧
    getProfile st "constructor" = .record janeProfile ∧
    renderEditProfile st "constructor" = .view (.form (.record janeProfile) [entryA, entryB]) ∧
    confirmOk st = .normal (confirmOk st).state ∧
    Obj.own (loadProfiles (confirmOk st).state.profiles) "constructor" = none ∧
    getProfile (confirmOk st).state "constructor" = .inherited "constructor" ∧
    getSession (confirmOk st).state = none := by
  decide

/-- With a username that is neither an own property of the stored mapping
nor a property name of `Object.prototype`, `getProfile` returns `null` and
the Public Profile view is the not-found block. -/
theorem public_profile_not_found (st : AppState) (u : String)
    (hown : Obj.own (loadProfiles st.profiles) u = none) (hu : u ∉ objectPrototypeKeys) :
    getProfile st u = .null ∧ renderPublicProfile st u = .view .notFound := by
  have h := (getProfile_eq_null_iff st u).2 ⟨hown, hu⟩
  refine ⟨h, ?_⟩
  unfold renderPublicProfile
  simp only [h]

/-- An absent item and a text that does not parse load as the empty
mapping. -/
theorem loadProfiles_absent_or_corrupt :
    loadProfiles .absent = [] ∧ loadProfiles .corrupt = [] :=
  ⟨rfl, rfl⟩

/-- C8. A first visit, nothing stored: the mapping is empty and has no key
`constructor`, yet `getProfile` returns a value for it, the fragment
`#/constructor` is routed to the Public Profile view, and that view raises a
`TypeError` where the claim has the not-found block.  For `valueOf` the view
is a profile page with the empty state. -/
theorem public_profile_constructor_not_absent :
    loadProfiles initialState.profiles = [] ∧
    Obj.own (loadProfiles initialState.profiles) "constructor" = none ∧
    getProfile initialState "constructor" = .inherited "constructor" ∧
    route "#/constructor" = .publicProfile "constructor" ∧
    renderPublicProfile initialState "constructor" = .typeError ∧
    navigate initialState "#/constructor" = .thrown initialState ∧
    getProfile initialState "valueOf" = .inherited "valueOf" ∧
    renderPublicProfile initialState "valueOf"
      = .view (.emptyState (.inherited "valueOf") false) := by
  decide

/-- The Edit view: access denied exactly when the session differs from the
route username; with the session equal to a username that is no property name
of `Object.prototype`, not found exactly when no record is stored under it,
and the form of the stored record otherwise.  Navigating to the Edit address
leaves the stored item and the session as they were. -/
theorem edit_view_outcome (st : AppState) (u : String) :
    (renderEditProfile st u = .view .accessDenied ↔ getSession st ≠ some u) ∧
    (getSession st = some u → u ∉ objectPrototypeKeys →
      (renderEditProfile st u = .view .notFound ↔
        Obj.own (loadProfiles st.profiles) u = none) ∧
      (∀ p : Profile, Obj.own (loadProfiles st.profiles) u = some p →
        renderEditProfile st u = .view (.form (.record p) (p.entries.getD [])))) ∧
    (navigate st ("#/edit/" ++ u)).state.profiles = st.profiles ∧
    (navigate st ("#/edit/" ++ u)).state.session = st.session := by
  refine ⟨?_, ?_, ?_, ?_⟩
  · unfold renderEditProfile
    by_cases hs : getSession st = some u
    · simp only [hs, ne_eq, not_true_eq_false, if_false, iff_false]
      cases hg : getProfile st u with
      | null => simp
      | record p =>
        simp only [Found.entries]
        cases p.entries <;> simp
      | inherited k =>
        simp only [Found.entries]
        by_cases hk : k = "constructor" <;> simp [hk]
    · simp [hs]
  · intro hs hu
    unfold renderEditProfile
    simp only [hs, ne_eq, not_true_eq_false, if_false]
    cases hown : Obj.own (loadProfiles st.profiles) u with
    | none =>
      have h := (getProfile_eq_null_iff st u).2 ⟨hown, hu⟩
      simp [h]
    | some p =>
      have h := (getProfile_eq_record_iff st u p).2 hown
      simp only [h, Found.entries]
      cases hp : p.entries <;> simp [hp]
  · rw [navigate, route_edit u]
    simp only
    cases renderEditProfile st u <;> rfl
  · rw [navigate, route_edit u]
    simp only
    cases renderEditProfile st u <;> rfl

/-- Outside the states the script writes: with a session item named
`constructor` put into storage by other means and nothing stored, the Edit
view of `constructor` raises a `TypeError`. -/
theorem edit_view_constructor_throws :
    let st : AppState := { initialState with session := some "constructor" }
    getSession st = some "constructor" ∧
    Obj.own (loadProfiles st.profiles) "constructor" = none ∧
    route "#/edit/constructor" = .edit "constructor" ∧
    renderEditProfile st "constructor" = .typeError ∧
    renderEditProfile st "constructor" ≠ .view .notFound ∧
    navigate st "#/edit/constructor" = .thrown st := by
  decide

/-! ## Entry editor: the entry sequence -/


theorem replaceAtFound_nil (i : String) (data : Entry) : replaceAtFound i data [] = [] := rfl

theorem replaceAtFound_cons (i : String) (data e : Entry) (rest : List Entry) :
    replaceAtFound i data (e :: rest)
      = if e.id = i then data :: rest else e :: replaceAtFound i data rest := by
  unfold replaceAtFound
  by_cases h : e.id = i
  · simp [List.findIdx?_cons, h]
  · simp only [List.findIdx?_cons, beq_iff_eq, h, if_false, zero_add, List.findIdx?_succ]
    cases hf : List.findIdx? (fun en => en.id == i) rest 0 with
    | none => simp
    | some idx => simp


theorem map_id_replaceAtFound (i : String) (data : Entry) (es : List Entry)
    (hd : data.id = i) :
    (replaceAtFound i data es).map (fun e => e.id) = es.map (fun e => e.id) := by
  induction es with
  | nil => rfl
  | cons e rest ih =>
    rw [replaceAtFound_cons]
    by_cases h : e.id = i
    · simp [h, hd]
    · simp [h, ih]

theorem map_id_unmarkOthers (i : String) (es : List Entry) :
    (unmarkOthers i es).map (fun e => e.id) = es.map (fun e => e.id) := by
  unfold unmarkOthers
  induction es with
  | nil => rfl
  | cons e rest ih =>
    by_cases h : e.id = i
    · simpa [h] using ih
    · simpa [h] using ih

theorem unmarkOthers_of_not_mem (i : String) (es : List Entry)
    (h : i ∉ es.map (fun e => e.id)) :
    unmarkOthers i es = es.map (fun en => { en with featured := false }) := by
  unfold unmarkOthers
  apply List.map_congr_left
  intro e he
  have : e.id ≠ i := by
    intro e2
    apply h
    rw [← e2]
    exact List.mem_map_of_mem (fun e => e.id) he
  simp [this]

theorem replaceAtFound_unmarkOthers (i : String) (data : Entry) (es : List Entry)
    (hc : (es.map (fun e => e.id)).count i = 1) :
    replaceAtFound i data (unmarkOthers i es)
      = es.map (fun en => if en.id = i then data else { en with featured := false }) := by
  induction es with
  | nil => simp at hc
  | cons e rest ih =>
    by_cases h : e.id = i
    · have hrest : i ∉ rest.map (fun e => e.id) := by
        intro hm
        have hpos : 0 < (rest.map (fun e => e.id)).count i := List.count_pos_iff.2 hm
        have : ((e :: rest).map (fun e => e.id)).count i
            = (rest.map (fun e => e.id)).count i + 1 := by
          simp [List.count_cons, h]
        omega
      have hun : unmarkOthers i (e :: rest) = e :: unmarkOthers i rest := by
        simp [unmarkOthers, h]
      rw [hun, replaceAtFound_cons, unmarkOthers_of_not_mem i rest hrest]
      simp only [h, if_true, List.map_cons]
      congr 1
      apply List.map_congr_left
      intro a ha
      have : a.id ≠ i := by
        intro e2
        apply hrest
        rw [← e2]
        exact List.mem_map_of_mem (fun e => e.id) ha
      simp [this]
    · have hc2 : (rest.map (fun e => e.id)).count i = 1 := by
        have : ((e :: rest).map (fun e => e.id)).count i
            = (rest.map (fun e => e.id)).count i := by
          simp [List.count_cons, h]
        omega
      have hun : unmarkOthers i (e :: rest)
          = { e with featured := false } :: unmarkOthers i rest := by
        simp [unmarkOthers, h]
      rw [hun, replaceAtFound_cons]
      simp only [h, if_false, List.map_cons]
      rw [ih hc2]

theorem countP_featured_map_clear (es : List Entry) :
    (es.map (fun en => { en with featured := false })).countP (fun e => e.featured) = 0 := by
  induction es with
  | nil => rfl
  | cons e rest ih => simp [List.countP_cons]

theorem countP_featured_map_replace (i : String) (data : Entry) (es : List Entry) :
    (es.map (fun en => if en.id = i then data else { en with featured := false })).countP
        (fun e => e.featured)
      ≤ (es.map (fun e => e.id)).count i := by
  induction es with
  | nil => simp
  | cons e rest ih =>
    by_cases h : e.id = i
    · simp only [List.map_cons, h, if_true, List.countP_cons, List.count_cons, beq_self_eq_true]
      split <;> omega
    · have h2 : ¬ ((e.id == i) = true) := by simpa using h
      simp only [List.map_cons, h, if_false, List.countP_cons, List.count_cons, h2]
      simpa using ih

theorem countP_featured_replaceAtFound (i : String) (data : Entry) (es : List Entry)
    (hd : data.featured = false) :
    (replaceAtFound i data es).countP (fun e => e.featured)
      ≤ es.countP (fun e => e.featured) := by
  induction es with
  | nil => simp [replaceAtFound_nil]
  | cons e rest ih =>
    rw [replaceAtFound_cons]
    by_cases h : e.id = i
    · simp [h, List.countP_cons, hd]
    · simp only [h, if_false, List.countP_cons]
      omega

/-! ## Entry editor: the submit handler -/


theorem entryData_id_of_edit (f : EntryForm) (uid : String) (h : f.entryEditId ≠ "") :
    (entryData f uid).id = f.entryEditId := by
  simp [entryData, h]

theorem entryData_id_of_add (f : EntryForm) (uid : String) (h : f.entryEditId = "") :
    (entryData f uid).id = uid := by
  simp [entryData, h]

theorem submittedEntries_add_featured (f : EntryForm) (uid : String) (es : List Entry)
    (hadd : f.entryEditId = "") (hf : f.entryFeatured = true)
    (hfresh : uid ∉ es.map (fun e => e.id)) :
    submittedEntries f uid es
      = es.map (fun en => { en with featured := false }) ++ [entryData f uid] := by
  unfold submittedEntries
  simp only [hadd, hf, if_true, ne_eq, not_true_eq_false, if_false]
  rw [entryData_id_of_add f uid hadd, unmarkOthers_of_not_mem uid es hfresh]

theorem submittedEntries_edit_featured (f : EntryForm) (uid : String) (es : List Entry)
    (hedit : f.entryEditId ≠ "") (hf : f.entryFeatured = true)
    (hc : (es.map (fun e => e.id)).count f.entryEditId = 1) :
    submittedEntries f uid es
      = es.map (fun en => if en.id = f.entryEditId then entryData f uid
          else { en with featured := false }) := by
  unfold submittedEntries
  simp only [hedit, hf, if_true, ne_eq, not_false_eq_true]
  rw [entryData_id_of_edit f uid hedit]
  exact replaceAtFound_unmarkOthers f.entryEditId (entryData f uid) es hc

theorem submittedEntries_invariant (f : EntryForm) (uid : String) (es : List Entry)
    (hn : (es.map (fun e => e.id)).Nodup)
    (hc : es.countP (fun e => e.featured) ≤ 1)
    (hadm : admissible es (f, uid) = true) :
    ((submittedEntries f uid es).map (fun e => e.id)).Nodup ∧
    (submittedEntries f uid es).countP (fun e => e.featured) ≤ 1 := by
  have hcases : (f.entryEditId = "" ∧ uid ∉ es.map (fun e => e.id)) ∨
      (f.entryEditId ≠ "" ∧ f.entryEditId ∈ es.map (fun e => e.id)) := by
    simpa [admissible] using hadm
  rcases hcases with ⟨hadd, hfresh⟩ | ⟨hedit, hmem⟩
  · have hid := entryData_id_of_add f uid hadd
    cases hf : f.entryFeatured with
    | true =>
      rw [submittedEntries_add_featured f uid es hadd hf hfresh]
      constructor
      · have : (es.map (fun en => ({ en with featured := false } : Entry))).map (fun e => e.id)
            = es.map (fun e => e.id) := by
          simp [List.map_map, Function.comp_def]
        rw [List.map_append, this, List.map_singleton, hid]
        exact List.Nodup.append hn (List.nodup_singleton uid)
          (by simpa [List.Disjoint] using hfresh)
      · rw [List.countP_append, countP_featured_map_clear]
        simp [List.countP_cons]
        split <;> omega
    | false =>
      have hs : submittedEntries f uid es = es ++ [entryData f uid] := by
        unfold submittedEntries
        simp [hadd, hf]
      have hdf : (entryData f uid).featured = false := by simp [entryData, hf]
      rw [hs]
      constructor
      · rw [List.map_append, List.map_singleton, hid]
        exact List.Nodup.append hn (List.nodup_singleton uid)
          (by simpa [List.Disjoint] using hfresh)
      · rw [List.countP_append]
        simp [List.countP_cons, hdf]
        exact hc
  · have hid := entryData_id_of_edit f uid hedit
    have hcount : (es.map (fun e => e.id)).count f.entryEditId = 1 :=
      List.count_eq_one_of_mem hn hmem
    cases hf : f.entryFeatured with
    | true =>
      rw [submittedEntries_edit_featured f uid es hedit hf hcount]
      constructor
      · have : (es.map (fun en => if en.id = f.entryEditId then entryData f uid
              else ({ en with featured := false } : Entry))).map (fun e => e.id)
            = es.map (fun e => e.id) := by
          rw [List.map_map]
          apply List.map_congr_left
          intro a _
          by_cases h : a.id = f.entryEditId
          · simp [h, hid]
          · simp [h]
        rw [this]
        exact hn
      · have := countP_featured_map_replace f.entryEditId (entryData f uid) es
        omega
    | false =>
      have hs : submittedEntries f uid es
          = replaceAtFound f.entryEditId (entryData f uid) es := by
        unfold submittedEntries
        simp [hedit, hf]
      have hdf : (entryData f uid).featured = false := by simp [entryData, hf]
      rw [hs]
      constructor
      · rw [map_id_replaceAtFound f.entryEditId (entryData f uid) es hid]
        exact hn
      · have := countP_featured_replaceAtFound f.entryEditId (entryData f uid) es hdf
        omega

theorem navigate_state_frame (st : AppState) (h : String) :
    (navigate st h).state.profiles = st.profiles ∧
    (navigate st h).state.session = st.session ∧
    (navigate st h).state.entryEditUsername = st.entryEditUsername := by
  unfold navigate
  cases route h with
  | home => exact ⟨rfl, rfl, rfl⟩
  | create =>
    simp only [renderCreateProfile]
    cases getSession st <;> exact ⟨rfl, rfl, rfl⟩
  | edit u =>
    simp only
    cases renderEditProfile st u <;> exact ⟨rfl, rfl, rfl⟩
  | publicProfile u =>
    simp only
    cases renderPublicProfile st u <;> exact ⟨rfl, rfl, rfl⟩

/-- What a submit of the entry form does to the state: nothing, or the write
of the profile with the new entry sequence. -/
theorem entrySubmit_state (st : AppState) (f : EntryForm) (uid u : String)
    (hopen : st.entryEditUsername = some u) :
    (entrySubmit st f uid).state = st ∨
    ∃ p es, getProfile st u = .record p ∧ p.entries = some es ∧
      (entrySubmit st f uid).state.profiles
        = (setProfile st u { p with entries := some (submittedEntries f uid es) }).profiles ∧
      (entrySubmit st f uid).state.entryEditUsername = some u := by
  unfold entrySubmit
  simp only [hopen]
  by_cases hu : u = ""
  · left; simp [hu, Completion.state]
  · simp only [hu, if_false]
    cases hg : getProfile st u with
    | null => left; rfl
    | inherited k =>
      left
      simp only
      split <;> rfl
    | record p =>
      simp only
      by_cases hb : (entryData f uid).title = "" ∨ (entryData f uid).link = ""
      · left; simp [hb, Completion.state]
      · simp only [hb, if_false]
        cases he : p.entries with
        | none => left; rfl
        | some es =>
          right
          refine ⟨p, es, rfl, he, ?_, ?_⟩
          · simp only
            rw [(navigate_state_frame _ _).1]
            rfl
          · simp only
            rw [(navigate_state_frame _ _).2.2]
            exact hopen

/-! ## Entry editor: at most one featured entry -/


theorem storedEntries_of_record (st : AppState) (u : String) (p : Profile) (es : List Entry)
    (hp : getProfile st u = .record p) (hes : p.entries = some es) :
    storedEntries st u = es := by
  simp [storedEntries, hp, hes]

theorem storedEntries_of_profiles_eq (st1 st2 : AppState) (u : String)
    (h : st1.profiles = st2.profiles) : storedEntries st1 u = storedEntries st2 u := by
  unfold storedEntries
  rw [getProfile_of_profiles_eq st1 st2 u h]

/-- One admissible submit keeps the ids distinct and at most one entry
featured. -/
theorem entrySubmit_keeps_invariant (st : AppState) (f : EntryForm) (uid u : String)
    (hopen : st.entryEditUsername = some u)
    (hids : ((storedEntries st u).map (fun e => e.id)).Nodup)
    (hfeat : featuredCount st u ≤ 1)
    (hadm : admissible (storedEntries st u) (f, uid) = true) :
    (entrySubmit st f uid).state.entryEditUsername = some u ∧
    ((storedEntries (entrySubmit st f uid).state u).map (fun e => e.id)).Nodup ∧
    featuredCount (entrySubmit st f uid).state u ≤ 1 := by
  rcases entrySubmit_state st f uid u hopen with hsame | ⟨p, es, hp, hes, hprof, hopen2⟩
  · rw [hsame]
    exact ⟨hopen, hids, hfeat⟩
  · have hse := storedEntries_of_record st u p es hp hes
    have hown : Obj.own (loadProfiles st.profiles) u ≠ none := by
      rw [(getProfile_eq_record_iff st u p).1 hp]
      simp
    have hnew : storedEntries (entrySubmit st f uid).state u = submittedEntries f uid es := by
      rw [storedEntries_of_profiles_eq _ _ u hprof]
      exact storedEntries_of_record _ u _ _
        (getProfile_setProfile_same st u _ (Or.inr hown)) rfl
    rw [hse] at hids hadm
    have hfeat2 : es.countP (fun e => e.featured) ≤ 1 := by
      have := hfeat
      unfold featuredCount at this
      rw [hse] at this
      exact this
    have hinv := submittedEntries_invariant f uid es hids hfeat2 hadm
    refine ⟨hopen2, ?_, ?_⟩
    · rw [hnew]
      exact hinv.1
    · unfold featuredCount
      rw [hnew]
      exact hinv.2

/-- C1. Let the entries stored under `u` have pairwise distinct ids and at
most one of them `featured = true` (a new profile with no entries included),
and let the entry editor be open on `u`.  For every sequence of submits, each
an add whose generated id no stored entry has or an edit that carries the id
of a stored entry, with any field values and any featured flag, the profile
stored after each submit has at most one entry with `featured = true`. -/
theorem at_most_one_featured_after_submits (u : String) (subs : List (EntryForm × String))
    (st : AppState)
    (hopen : st.entryEditUsername = some u)
    (hids : ((storedEntries st u).map (fun e => e.id)).Nodup)
    (hfeat : featuredCount st u ≤ 1)
    (hadm : admissibleRun u st subs = true) :
    ∀ st1 ∈ submitStates st subs, featuredCount st1 u ≤ 1 := by
  induction subs generalizing st with
  | nil => intro st1 h; simp [submitStates] at h
  | cons s rest ih =>
    have hadm2 : admissible (storedEntries st u) (s.1, s.2) = true ∧
        admissibleRun u (entrySubmit st s.1 s.2).state rest = true := by
      simpa [admissibleRun] using hadm
    have hstep := entrySubmit_keeps_invariant st s.1 s.2 u hopen hids hfeat hadm2.1
    intro st1 hmem
    have : st1 = (entrySubmit st s.1 s.2).state ∨
        st1 ∈ submitStates (entrySubmit st s.1 s.2).state rest := by
      simpa [submitStates] using hmem
    rcases this with h | h
    · rw [h]
      exact hstep.2.2
    · exact ih _ hstep.1 hstep.2.1 hstep.2.2 hadm2.2 st1 h



/-- The invariant on the scenario profile: A is edited and featured, a new
entry is added and featured, B is edited; one entry is featured after each. -/
theorem at_most_one_featured_after_submits_witness :
    janeState.entryEditUsername = some "jane-doe" ∧
    ((storedEntries janeState "jane-doe").map (fun e => e.id)).Nodup ∧
    featuredCount janeState "jane-doe" ≤ 1 ∧
    admissibleRun "jane-doe" janeState janeSubmits = true ∧
    (∀ st1 ∈ submitStates janeState janeSubmits, featuredCount st1 "jane-doe" ≤ 1) ∧
    (submitStates janeState janeSubmits).map (fun st1 => featuredCount st1 "jane-doe")
      = [1, 1, 1] :=
  ⟨rfl, by decide, by decide, by decide,
   at_most_one_featured_after_submits "jane-doe" janeSubmits janeState rfl
     (by decide) (by decide) (by decide),
   by decide⟩

theorem entrySubmit_written (st : AppState) (f : EntryForm) (uid u : String) (p : Profile)
    (es : List Entry)
    (hopen : st.entryEditUsername = some u) (hu : u ≠ "")
    (hp : getProfile st u = .record p) (hes : p.entries = some es)
    (ht : jsTrim f.entryTitle ≠ "") (hl : jsTrim f.entryLink ≠ "") :
    (entrySubmit st f uid).state.profiles
      = (setProfile st u { p with entries := some (submittedEntries f uid es) }).profiles := by
  have hb : ¬ ((entryData f uid).title = "" ∨ (entryData f uid).link = "") := by
    simp [entryData, ht, hl]
  unfold entrySubmit
  simp only [hopen, hu, if_false, hp, hb, hes]
  rw [(navigate_state_frame _ _).1]
  rfl

/-- C2. Let `p` be the profile stored under the non-empty username `u`, with
entry sequence `es`, and let the entry editor be open on `u`.  For every
submit with featured ticked and non-blank title and link that is an add whose
generated id no entry of `es` has, or an edit carrying the id of exactly one
entry of `es`, the one record written is `p` with the saved entry featured and
every other entry with `featured = false`, all their other fields and the
order unchanged. -/
theorem featured_submit_unmarks_others (st : AppState) (f : EntryForm) (uid u : String)
    (p : Profile) (es : List Entry)
    (hopen : st.entryEditUsername = some u) (hu : u ≠ "")
    (hp : getProfile st u = .record p) (hes : p.entries = some es)
    (hf : f.entryFeatured = true)
    (ht : jsTrim f.entryTitle ≠ "") (hl : jsTrim f.entryLink ≠ "")
    (hid : (f.entryEditId = "" ∧ uid ∉ es.map (fun e => e.id)) ∨
      (f.entryEditId ≠ "" ∧ (es.map (fun e => e.id)).count f.entryEditId = 1)) :
    getProfile (entrySubmit st f uid).state u
      = .record { p with entries := some (featuredOutcome f uid es) } ∧
    (entryData f uid).featured = true ∧
    entryData f uid ∈ storedEntries (entrySubmit st f uid).state u ∧
    (∀ e ∈ storedEntries (entrySubmit st f uid).state u,
      e ≠ entryData f uid → e.featured = false) := by
  have hown : Obj.own (loadProfiles st.profiles) u ≠ none := by
    rw [(getProfile_eq_record_iff st u p).1 hp]
    simp
  have hprof := entrySubmit_written st f uid u p es hopen hu hp hes ht hl
  have hsub : submittedEntries f uid es = featuredOutcome f uid es := by
    unfold featuredOutcome
    rcases hid with ⟨hadd, hfresh⟩ | ⟨hedit, hc⟩
    · rw [submittedEntries_add_featured f uid es hadd hf hfresh]
      simp [hadd]
    · rw [submittedEntries_edit_featured f uid es hedit hf hc]
      simp [hedit]
  have hget : getProfile (entrySubmit st f uid).state u
      = .record { p with entries := some (submittedEntries f uid es) } := by
    rw [getProfile_of_profiles_eq _ _ u hprof]
    exact getProfile_setProfile_same st u _ (Or.inr hown)
  have hstored : storedEntries (entrySubmit st f uid).state u = submittedEntries f uid es :=
    storedEntries_of_record _ u _ _ hget rfl
  refine ⟨?_, ?_, ?_, ?_⟩
  · rw [hget, hsub]
  · simp [entryData, hf]
  · rw [hstored]
    rcases hid with ⟨hadd, hfresh⟩ | ⟨hedit, hc⟩
    · rw [submittedEntries_add_featured f uid es hadd hf hfresh]
      simp
    · rw [submittedEntries_edit_featured f uid es hedit hf hc]
      have hmem : f.entryEditId ∈ es.map (fun e => e.id) := by
        apply List.count_pos_iff.1
        omega
      obtain ⟨a, ha, hae⟩ := List.mem_map.1 hmem
      apply List.mem_map.2
      exact ⟨a, ha, by simp [hae]⟩
  · rw [hstored]
    intro e he hne
    rcases hid with ⟨hadd, hfresh⟩ | ⟨hedit, hc⟩
    · rw [submittedEntries_add_featured f uid es hadd hf hfresh] at he
      rcases List.mem_append.1 he with h | h
      · obtain ⟨a, _, hae⟩ := List.mem_map.1 h
        rw [← hae]
      · have : e = entryData f uid := by simpa using h
        exact absurd this hne
    · rw [submittedEntries_edit_featured f uid es hedit hf hc] at he
      obtain ⟨a, _, hae⟩ := List.mem_map.1 he
      by_cases h : a.id = f.entryEditId
      · simp only [h, if_true] at hae
        exact absurd hae.symm hne
      · simp only [h, if_false] at hae
        rw [← hae]


/-- The scenario of the spec: A and B unfeatured, A edited with featured
ticked; the record written has A featured and B not. -/
theorem featured_submit_unmarks_others_witness :
    janeState.entryEditUsername = some "jane-doe" ∧
    getProfile janeState "jane-doe" = .record janeProfile ∧
    janeProfile.entries = some [entryA, entryB] ∧
    editAFeatured.entryFeatured = true ∧
    jsTrim editAFeatured.entryTitle ≠ "" ∧ jsTrim editAFeatured.entryLink ≠ "" ∧
    ([entryA, entryB].map (fun e => e.id)).count editAFeatured.entryEditId = 1 ∧
    getProfile (entrySubmit janeState editAFeatured "x1").state "jane-doe"
      = .record { janeProfile with
          entries := some [{ entryA with featured := true }, entryB] } :=
  ⟨rfl, by decide, rfl, rfl, by decide, by decide, by decide,
   (featured_submit_unmarks_others janeState editAFeatured "x1" "jane-doe" janeProfile
      [entryA, entryB] rfl (by decide) (by decide) rfl rfl (by decide) (by decide)
      (Or.inr ⟨by decide, by decide⟩)).1⟩

/-- C2, as stated, fails in two cases.  First: the editor is open on A while
A is no longer stored (only B is); the featured submit writes a record that
does not contain the saved entry.  Second: A is stored and featured, and an
add is given the generated id of A; the record written has two featured
entries, the stored A and the added one. -/
theorem featured_submit_counterexample :
    ((janeWith [entryB]).entryEditUsername = some "jane-doe" ∧
      getProfile (janeWith [entryB]) "jane-doe"
        = .record { janeProfile with entries := some [entryB] } ∧
      editAFeatured.entryFeatured = true ∧
      jsTrim editAFeatured.entryTitle ≠ "" ∧ jsTrim editAFeatured.entryLink ≠ "" ∧
      storedEntries (entrySubmit (janeWith [entryB]) editAFeatured "x1").state "jane-doe"
        = [entryB] ∧
      entryData editAFeatured "x1"
        ∉ storedEntries (entrySubmit (janeWith [entryB]) editAFeatured "x1").state "jane-doe") ∧
    ((janeWith [{ entryA with featured := true }]).entryEditUsername = some "jane-doe" ∧
      getProfile (janeWith [{ entryA with featured := true }]) "jane-doe"
        = .record { janeProfile with entries := some [{ entryA with featured := true }] } ∧
      addFeatured.entryFeatured = true ∧
      jsTrim addFeatured.entryTitle ≠ "" ∧ jsTrim addFeatured.entryLink ≠ "" ∧
      storedEntries
          (entrySubmit (janeWith [{ entryA with featured := true }]) addFeatured "a").state
          "jane-doe"
        = [{ entryA with featured := true }, entryData addFeatured "a"] ∧
      ({ entryA with featured := true } : Entry) ≠ entryData addFeatured "a" ∧
      featuredCount
          (entrySubmit (janeWith [{ entryA with featured := true }]) addFeatured "a").state
          "jane-doe" = 2) := by
  decide


/-- The router on one fragment of each shape. -/
theorem navigate_selects_view_witness :
    route "" = .home ∧ route "#" = .home ∧ route "#/" = .home ∧
    route "#/create" = .create ∧
    route "#/edit/alice" = .edit "alice" ∧
    route "#/alice" = .publicProfile "alice" ∧
    route "profile" = .home :=
  ⟨(navigate_selects_view "").1 (Or.inl rfl),
   (navigate_selects_view "#").1 (Or.inr (Or.inl rfl)),
   (navigate_selects_view "#/").1 (Or.inr (Or.inr rfl)),
   (navigate_selects_view "#/create").2.1 rfl,
   (navigate_selects_view "#/edit/alice").2.2.1 "alice" (by decide),
   (navigate_selects_view "#/alice").2.2.2.1 "alice" (by decide) (by decide) (by decide)
     (by
       intro w hw
       have h := congrArg (fun s : String => s.data.head?) hw
       simp [String.data_append] at h),
   (navigate_selects_view "profile").2.2.2.2
     (by
       intro u hu
       have h := congrArg (fun s : String => s.data.head?) hu
       simp [String.data_append] at h)⟩

/-! ## Home view: search and order -/


theorem includesChars_iff (pat s : List Char) :
    includesChars pat s = true ↔ ∃ pre post : List Char, s = pre ++ pat ++ post := by
  induction s with
  | nil =>
    cases pat with
    | nil => simp [includesChars]
    | cons p ps => simp [includesChars]
  | cons c cs ih =>
    simp only [includesChars, Bool.or_eq_true, ih, startsWith_iff]
    constructor
    · rintro (⟨u, hu⟩ | ⟨pre, post, h⟩)
      · exact ⟨[], u, by simpa using hu⟩
      · exact ⟨c :: pre, post, by simp [h]⟩
    · rintro ⟨pre, post, h⟩
      cases pre with
      | nil => exact Or.inl ⟨post, by simpa using h⟩
      | cons d pre2 =>
        right
        simp only [List.cons_append, List.cons.injEq] at h
        exact ⟨pre2, post, h.2⟩

theorem perm_insertByCompare {α : Type} (cmp : α → α → Int) (a : α) (l : List α) :
    (insertByCompare cmp a l).Perm (a :: l) := by
  induction l with
  | nil => exact List.Perm.refl _
  | cons b rest ih =>
    unfold insertByCompare
    by_cases h : cmp a b ≤ 0
    · simp [h]
    · simp only [h, if_false]
      exact (List.Perm.cons b ih).trans (List.Perm.swap a b rest)

theorem perm_jsSort {α : Type} (cmp : α → α → Int) (l : List α) : (jsSort cmp l).Perm l := by
  induction l with
  | nil => exact List.Perm.refl _
  | cons a rest ih =>
    unfold jsSort
    exact (perm_insertByCompare cmp a _).trans (List.Perm.cons a ih)

theorem pairwise_insertByCompare {α : Type} (rank : α → Nat) (a : α) (l : List α)
    (hl : l.Pairwise (fun x y => rank y ≤ rank x)) :
    (insertByCompare (fun x y => (rank y : Int) - (rank x : Int)) a l).Pairwise
      (fun x y => rank y ≤ rank x) := by
  induction l with
  | nil => simp [insertByCompare]
  | cons b rest ih =>
    have hb := List.pairwise_cons.1 hl
    unfold insertByCompare
    by_cases h : (rank b : Int) - (rank a : Int) ≤ 0
    · simp only [h, if_true]
      have hba : rank b ≤ rank a := by omega
      refine List.pairwise_cons.2 ⟨?_, hl⟩
      intro y hy
      rcases List.mem_cons.1 hy with rfl | hy2
      · exact hba
      · exact Nat.le_trans (hb.1 y hy2) hba
    · simp only [h, if_false]
      have hab : rank a ≤ rank b := by omega
      refine List.pairwise_cons.2 ⟨?_, ih hb.2⟩
      intro y hy
      have hy2 : y ∈ a :: rest := (perm_insertByCompare _ a rest).mem_iff.1 hy
      rcases List.mem_cons.1 hy2 with rfl | hy3
      · exact hab
      · exact hb.1 y hy3

theorem pairwise_jsSort {α : Type} (rank : α → Nat) (l : List α) :
    (jsSort (fun x y => (rank y : Int) - (rank x : Int)) l).Pairwise
      (fun x y => rank y ≤ rank x) := by
  induction l with
  | nil => simp [jsSort]
  | cons a rest ih =>
    unfold jsSort
    exact pairwise_insertByCompare rank a _ ih

theorem own_of_mem_keys (m : Obj) (k : String) (h : k ∈ Obj.keys m) :
    ∃ p, Obj.own m k = some p := by
  cases ho : Obj.own m k with
  | none => exact absurd h ((own_eq_none_iff m k).1 ho)
  | some p => exact ⟨p, rfl⟩

theorem mem_keys_of_own (m : Obj) (k : String) (p : Profile) (h : Obj.own m k = some p) :
    k ∈ Obj.keys m := by
  by_contra hn
  rw [(own_eq_none_iff m k).2 hn] at h
  exact Option.noConfusion h


theorem jsIncludes_iff (s q : String) : jsIncludes s q = true ↔ OccursIn q s := by
  unfold jsIncludes OccursIn
  exact includesChars_iff q.data s.data

theorem occursIn_empty (s : String) : OccursIn "" s :=
  ⟨[], s.data, by simp⟩

theorem matchesQuery_iff (toLowerCase : String → String) (all : Obj) (q k : String)
    (p : Profile) (hp : Obj.own all k = some p) :
    matchesQuery toLowerCase all q k = true ↔ Matches toLowerCase q k p := by
  unfold matchesQuery Matches
  by_cases hq : q = ""
  · subst hq
    simp only [if_true, true_iff]
    exact Or.inl (occursIn_empty _)
  · simp only [hq, if_false, hp, Bool.or_eq_true, jsIncludes_iff, or_assoc]

/-- The usernames `renderProfileList` lists are the sorted, filtered keys, in
each of its three branches. -/
theorem listed_renderProfileList (toLowerCase : String → String) (st : AppState)
    (query : String) :
    (renderProfileList toLowerCase st query).listed
      = jsSort
          (fun a b => (createdAtOrZero (loadProfiles st.profiles) b : Int)
            - (createdAtOrZero (loadProfiles st.profiles) a : Int))
          ((Obj.keys (loadProfiles st.profiles)).filter
            (matchesQuery toLowerCase (loadProfiles st.profiles) query)) := by
  unfold renderProfileList
  simp only
  split
  · rename_i h
    simp only [HomeView.listed]
    exact (List.length_eq_zero.1 h.1).symm
  · split
    · rename_i h
      simp only [HomeView.listed]
      exact (List.length_eq_zero.1 h).symm
    · rfl

theorem mem_listed_iff (toLowerCase : String → String) (st : AppState) (query k : String) :
    k ∈ (renderProfileList toLowerCase st query).listed ↔
      ∃ p, Obj.own (loadProfiles st.profiles) k = some p ∧ Matches toLowerCase query k p := by
  rw [listed_renderProfileList, (perm_jsSort _ _).mem_iff, List.mem_filter]
  constructor
  · rintro ⟨hk, hm⟩
    obtain ⟨p, hp⟩ := own_of_mem_keys _ k hk
    exact ⟨p, hp, (matchesQuery_iff toLowerCase _ query k p hp).1 hm⟩
  · rintro ⟨p, hp, hm⟩
    exact ⟨mem_keys_of_own _ k p hp, (matchesQuery_iff toLowerCase _ query k p hp).2 hm⟩

/-- C11. For every store and every search text, with `q` the trimmed and
lowercased text: the usernames the Home view lists are pairwise distinct; a
username is listed exactly when a profile is stored under it and `q` occurs
in its lowercased username, display name or bio (a missing name or bio
counting as empty); an empty `q` keeps every username; and every listed
profile has a `createdAt`, missing counted as 0, greater than or equal to that
of each profile listed after it.  This holds whatever the lowercasing of the
platform does. -/
theorem home_listing_matches_reference (toLowerCase : String → String) (st : AppState)
    (text : String) :
    (homeSearchInput toLowerCase st text).listed.Nodup ∧
    (∀ k : String, k ∈ (homeSearchInput toLowerCase st text).listed ↔
      ∃ p, Obj.own (loadProfiles st.profiles) k = some p ∧
        Matches toLowerCase (toLowerCase (jsTrim text)) k p) ∧
    (toLowerCase (jsTrim text) = "" →
      ∀ k : String, k ∈ Obj.keys (loadProfiles st.profiles) →
        k ∈ (homeSearchInput toLowerCase st text).listed) ∧
    (homeSearchInput toLowerCase st text).listed.Pairwise
      (fun a b => ∀ pa pb : Profile,
        Obj.own (loadProfiles st.profiles) a = some pa →
        Obj.own (loadProfiles st.profiles) b = some pb →
        pb.createdAt.getD 0 ≤ pa.createdAt.getD 0) := by
  unfold homeSearchInput
  refine ⟨?_, ?_, ?_, ?_⟩
  · rw [listed_renderProfileList, (perm_jsSort _ _).nodup_iff]
    exact (nodup_keys_loadProfiles st.profiles).filter _
  · intro k
    exact mem_listed_iff toLowerCase st _ k
  · intro hq k hk
    obtain ⟨p, hp⟩ := own_of_mem_keys _ k hk
    rw [mem_listed_iff, hq]
    exact ⟨p, hp, Or.inl (occursIn_empty _)⟩
  · rw [listed_renderProfileList]
    refine (pairwise_jsSort (createdAtOrZero (loadProfiles st.profiles)) _).imp ?_
    intro a b hab pa pb ha hb
    simpa [createdAtOrZero, ha, hb] using hab

/-- C12. For every store and every query: a non-empty query that matches no
stored profile (also when nothing is stored) gives the state "no profiles
match", which has no create link; the state "no profiles yet" with the create
link is shown exactly when the query is empty and no profile is stored; and
when at least one stored profile matches, the view is a non-empty list, so
neither empty state. -/
theorem home_empty_states (toLowerCase : String → String) (st : AppState) (query : String) :
    (query ≠ "" →
      (∀ (k : String) (p : Profile), Obj.own (loadProfiles st.profiles) k = some p →
        ¬ Matches toLowerCase query k p) →
      renderProfileList toLowerCase st query = .noMatches) ∧
    (renderProfileList toLowerCase st query = .noProfiles ↔
      query = "" ∧ Obj.keys (loadProfiles st.profiles) = []) ∧
    ((∃ (k : String) (p : Profile), Obj.own (loadProfiles st.profiles) k = some p ∧
        Matches toLowerCase query k p) →
      ∃ keys : List String, keys ≠ [] ∧ renderProfileList toLowerCase st query = .list keys) := by
  have hl := listed_renderProfileList toLowerCase st query
  have hmem := mem_listed_iff toLowerCase st query
  have hbranch : ∀ keys : List String,
      jsSort
          (fun a b => (createdAtOrZero (loadProfiles st.profiles) b : Int)
            - (createdAtOrZero (loadProfiles st.profiles) a : Int))
          ((Obj.keys (loadProfiles st.profiles)).filter
            (matchesQuery toLowerCase (loadProfiles st.profiles) query)) = keys →
      renderProfileList toLowerCase st query
        = if keys.length = 0 ∧ query = "" then .noProfiles
          else if keys.length = 0 then .noMatches else .list keys := by
    intro keys hk
    unfold renderProfileList
    simp only [hk]
  refine ⟨?_, ?_, ?_⟩
  · intro hq hno
    have hempty : (renderProfileList toLowerCase st query).listed = [] := by
      apply List.eq_nil_iff_forall_not_mem.2
      intro k hk
      obtain ⟨p, hp, hm⟩ := (hmem k).1 hk
      exact hno k p hp hm
    rw [hl] at hempty
    rw [hbranch [] hempty]
    simp [hq]
  · constructor
    · intro hv
      have hempty : (renderProfileList toLowerCase st query).listed = [] := by
        rw [hv]; rfl
      have hq : query = "" := by
        by_contra hq
        rw [hl] at hempty
        rw [hbranch [] hempty] at hv
        simp [hq] at hv
      refine ⟨hq, ?_⟩
      apply List.eq_nil_iff_forall_not_mem.2
      intro k hk
      obtain ⟨p, hp⟩ := own_of_mem_keys _ k hk
      have : k ∈ (renderProfileList toLowerCase st query).listed := by
        rw [hmem k, hq]
        exact ⟨p, hp, Or.inl (occursIn_empty _)⟩
      rw [hempty] at this
      simp at this
    · rintro ⟨hq, hk⟩
      have hempty : (renderProfileList toLowerCase st query).listed = [] := by
        apply List.eq_nil_iff_forall_not_mem.2
        intro k hk2
        obtain ⟨p, hp, _⟩ := (hmem k).1 hk2
        have := mem_keys_of_own _ k p hp
        rw [hk] at this
        simp at this
      rw [hl] at hempty
      rw [hbranch [] hempty]
      simp [hq]
  · rintro ⟨k, p, hp, hm⟩
    have hin : k ∈ (renderProfileList toLowerCase st query).listed :=
      (hmem k).2 ⟨p, hp, hm⟩
    rw [hl] at hin
    refine ⟨_, List.ne_nil_of_mem hin, ?_⟩
    rw [hbranch _ rfl]
    have hlen : ¬ (jsSort
          (fun a b => (createdAtOrZero (loadProfiles st.profiles) b : Int)
            - (createdAtOrZero (loadProfiles st.profiles) a : Int))
          ((Obj.keys (loadProfiles st.profiles)).filter
            (matchesQuery toLowerCase (loadProfiles st.profiles) query))).length = 0 := by
      intro h0
      rw [List.length_eq_zero.1 h0] at hin
      simp at hin
    simp [hlen]


/-- The listing for the text ` BUILD ` on the sample store, and for a blank
text. -/
theorem home_listing_matches_reference_witness :
    (homeSearchInput asciiLower homeSample " BUILD ").listed = ["bob", "alice"] ∧
    (homeSearchInput asciiLower homeSample " BUILD ").listed.Nodup ∧
    (homeSearchInput asciiLower homeSample " BUILD ").listed.Pairwise
      (fun a b => ∀ pa pb : Profile,
        Obj.own (loadProfiles homeSample.profiles) a = some pa →
        Obj.own (loadProfiles homeSample.profiles) b = some pb →
        pb.createdAt.getD 0 ≤ pa.createdAt.getD 0) ∧
    asciiLower (jsTrim "  ") = "" ∧
    "alice" ∈ (homeSearchInput asciiLower homeSample "  ").listed ∧
    (homeSearchInput asciiLower homeSample "  ").listed = ["2", "10", "bob", "alice"] :=
  ⟨by decide,
   (home_listing_matches_reference asciiLower homeSample " BUILD ").1,
   (home_listing_matches_reference asciiLower homeSample " BUILD ").2.2.2,
   by decide,
   (home_listing_matches_reference asciiLower homeSample "  ").2.2.1 (by decide) "alice"
     (by decide),
   by decide⟩

/-- The three states of the Home view: a query on an empty store, no query on
an empty store, and a query that matches `bob`. -/
theorem home_empty_states_witness :
    renderProfileList asciiLower initialState "zzz" = .noMatches ∧
    renderProfileList asciiLower initialState "" = .noProfiles ∧
    (∃ keys : List String, keys ≠ [] ∧
      renderProfileList asciiLower homeSample "build" = .list keys) ∧
    renderProfileList asciiLower homeSample "build" = .list ["bob", "alice"] ∧
    renderProfileList asciiLower homeSample "zzz" = .noMatches :=
  ⟨(home_empty_states asciiLower initialState "zzz").1 (by decide)
     (by
       intro k p hp
       simp [initialState, loadProfiles, Obj.own] at hp),
   (home_empty_states asciiLower initialState "").2.1.2 ⟨rfl, by decide⟩,
   (home_empty_states asciiLower homeSample "build").2.2
     ⟨"bob", ⟨some "Bob Builder", some "I build", none, none, some 5⟩, by decide,
      Or.inr (Or.inl ((jsIncludes_iff _ _).1 (by decide)))⟩,
   by decide, by decide⟩

/-! ## Public Profile view: featured entry and grid -/

theorem perm_find_filter_featured (es : List Entry)
    (h : es.countP (fun e => e.featured) ≤ 1) :
    ((es.find? (fun e => e.featured)).toList ++ es.filter (fun e => !e.featured)).Perm es := by
  induction es with
  | nil => simp
  | cons e rest ih =>
    cases hf : e.featured with
    | true =>
      have hc : rest.countP (fun e => e.featured) = 0 := by
        have : (e :: rest).countP (fun e => e.featured)
            = rest.countP (fun e => e.featured) + 1 := by
          simp [List.countP_cons, hf]
        omega
      have hall : rest.filter (fun e => !e.featured) = rest := by
        apply List.filter_eq_self.2
        intro a ha
        have := List.countP_eq_zero.1 hc a ha
        simpa using this
      simp [List.find?_cons, List.filter_cons, hf, hall]
    | false =>
      have hc : rest.countP (fun e => e.featured) ≤ 1 := by
        have : (e :: rest).countP (fun e => e.featured)
            = rest.countP (fun e => e.featured) := by
          simp [List.countP_cons, hf]
        omega
      have := ih hc
      simp only [List.find?_cons, hf, List.filter_cons, Bool.not_false, if_true]
      exact List.perm_middle.trans (List.Perm.cons e this)

/-- C13. For every stored profile, absent entries counting as the empty
sequence, the Public Profile view is rendered with: as the featured entry the
first entry with `featured = true`, if there is one; as the rest exactly the
entries with `featured = false`, in their order; and it shows the featured
entry followed by the rest.  When at most one entry is featured, what it
shows is a rearrangement of the stored entries, each shown exactly once, so as
many entries are shown as are stored. -/
theorem public_profile_split (st : AppState) (u : String) (p : Profile)
    (hp : getProfile st u = .record p) :
    ∃ v : PublicView, renderPublicProfile st u = .view v ∧
      v.featured = (p.entries.getD []).find? (fun e => e.featured) ∧
      v.others = (p.entries.getD []).filter (fun e => !e.featured) ∧
      v.shown = v.featured.toList ++ v.others ∧
      ((p.entries.getD []).countP (fun e => e.featured) ≤ 1 →
        v.shown.Perm (p.entries.getD []) ∧ v.shown.length = (p.entries.getD []).length) := by
  have key : ∀ es : List Entry, p.entries.getD [] = es →
      ∃ v : PublicView, renderPublicProfile st u = .view v ∧
        v.featured = es.find? (fun e => e.featured) ∧
        v.others = es.filter (fun e => !e.featured) ∧
        v.shown = v.featured.toList ++ v.others := by
    intro es hes
    unfold renderPublicProfile
    simp only [hp, Found.entries]
    cases he : p.entries with
    | none =>
      have : es = [] := by rw [← hes, he]; rfl
      subst this
      exact ⟨_, rfl, rfl, rfl, rfl⟩
    | some es2 =>
      have : es = es2 := by rw [← hes, he]; rfl
      subst this
      simp only
      cases es with
      | nil => exact ⟨_, rfl, rfl, rfl, rfl⟩
      | cons e rest =>
        simp only [List.length_cons, Nat.add_one_ne_zero, if_false]
        exact ⟨_, rfl, rfl, rfl, rfl⟩
  obtain ⟨v, hv, hf, ho, hs⟩ := key _ rfl
  refine ⟨v, hv, hf, ho, hs, ?_⟩
  intro hc
  have hperm : v.shown.Perm (p.entries.getD []) := by
    rw [hs, hf, ho]
    exact perm_find_filter_featured _ hc
  exact ⟨hperm, hperm.length_eq⟩


/-- The view of `jane-doe` with B, a featured A and a third entry stored. -/
theorem public_profile_split_witness :
    getProfile (janeWith [entryB, { entryA with featured := true }, { entryB with id := "c" }])
        "jane-doe"
      = .record { janeProfile with
          entries := some [entryB, { entryA with featured := true }, { entryB with id := "c" }] } ∧
    renderPublicProfile
        (janeWith [entryB, { entryA with featured := true }, { entryB with id := "c" }]) "jane-doe"
      = .view (.content
          (.record { janeProfile with
            entries := some [entryB, { entryA with featured := true }, { entryB with id := "c" }] })
          true (some { entryA with featured := true }) [entryB, { entryB with id := "c" }]) ∧
    (∃ v : PublicView,
      renderPublicProfile
          (janeWith [entryB, { entryA with featured := true }, { entryB with id := "c" }])
          "jane-doe" = .view v ∧
      v.featured = [entryB, { entryA with featured := true }, { entryB with id := "c" }].find?
        (fun e => e.featured) ∧
      v.others = [entryB, { entryA with featured := true }, { entryB with id := "c" }].filter
        (fun e => !e.featured) ∧
      v.shown = v.featured.toList ++ v.others ∧
      ([entryB, { entryA with featured := true }, { entryB with id := "c" }].countP
          (fun e => e.featured) ≤ 1 →
        v.shown.Perm [entryB, { entryA with featured := true }, { entryB with id := "c" }] ∧
        v.shown.length
          = [entryB, { entryA with featured := true }, { entryB with id := "c" }].length)) :=
  ⟨by decide, by decide,
   public_profile_split
     (janeWith [entryB, { entryA with featured := true }, { entryB with id := "c" }]) "jane-doe"
     { janeProfile with
       entries := some [entryB, { entryA with featured := true }, { entryB with id := "c" }] }
     (by decide)⟩

/-! ## Display of links -/


theorem length_cutTo_le (display : List Nat) (max : Nat) :
    (cutTo display max).length ≤ max + 1 := by
  unfold cutTo
  by_cases h : display.length > max
  · simp only [h, if_true, List.length_append, List.length_take, List.length_singleton]
    omega
  · simp only [h, if_false]
    omega

/-- C14. For every link string and every display budget `max`: the text
measured against the budget is, for a string the constructor `URL` accepts,
its hostname + path without one trailing slash, and for a malformed URL the
raw string.  That text is displayed unchanged when its length is at most
`max`, and otherwise cut to its first `max` characters followed by the
ellipsis marker.  In every case the displayed text is at most `max + 1`
characters long, and the marker is added exactly when characters of that text
were cut.  Lengths are counted in UTF-16 code units, as `length` and `slice`
do. -/
theorem truncateURL_cuts_display (parseURL : String → Option URLParts) (url : String)
    (max : Nat) :
    (∀ u : URLParts, parseURL url = some u →
      urlDisplay parseURL url
        = if (utf16 (u.hostname ++ u.pathname)).getLast? = some 0x2F
          then (utf16 (u.hostname ++ u.pathname)).dropLast
          else utf16 (u.hostname ++ u.pathname)) ∧
    (parseURL url = none → urlDisplay parseURL url = utf16 url) ∧
    ((urlDisplay parseURL url).length ≤ max →
      truncateURL parseURL url max = urlDisplay parseURL url) ∧
    (max < (urlDisplay parseURL url).length →
      truncateURL parseURL url max = (urlDisplay parseURL url).take max ++ [ellipsis] ∧
      (truncateURL parseURL url max).length = max + 1) ∧
    (truncateURL parseURL url max).length ≤ max + 1 := by
  refine ⟨?_, ?_, ?_, ?_, ?_⟩
  · intro u hu
    simp [urlDisplay, hu]
  · intro hu
    simp [urlDisplay, hu]
  · intro h
    have : ¬ (urlDisplay parseURL url).length > max := by omega
    simp [truncateURL, cutTo, this]
  · intro h
    have hgt : (urlDisplay parseURL url).length > max := h
    have heq : truncateURL parseURL url max
        = (urlDisplay parseURL url).take max ++ [ellipsis] := by
      simp [truncateURL, cutTo, hgt]
    refine ⟨heq, ?_⟩
    rw [heq]
    simp only [List.length_append, List.length_take, List.length_singleton]
    omega
  · exact length_cutTo_le _ max

/-- The example: two budgets on the sample address, one budget on a string
that is no URL. -/
theorem truncateURL_cuts_display_witness :
    sampleParseURL "https://portfolio-showcase.example-studio.com/"
      = some { hostname := "portfolio-showcase.example-studio.com", pathname := "/" } ∧
    urlDisplay sampleParseURL "https://portfolio-showcase.example-studio.com/"
      = utf16 "portfolio-showcase.example-studio.com" ∧
    35 < (urlDisplay sampleParseURL "https://portfolio-showcase.example-studio.com/").length ∧
    truncateURL sampleParseURL "https://portfolio-showcase.example-studio.com/" 35
      = utf16 "portfolio-showcase.example-studio.c…" ∧
    truncateURL sampleParseURL "https://portfolio-showcase.example-studio.com/" 40
      = utf16 "portfolio-showcase.example-studio.com" ∧
    sampleParseURL "my page" = none ∧
    truncateURL sampleParseURL "my page" 35 = utf16 "my page" ∧
    (truncateURL sampleParseURL "https://portfolio-showcase.example-studio.com/" 35).length
      ≤ 35 + 1 :=
  ⟨by decide, by decide, by decide, by decide,
   ((truncateURL_cuts_display sampleParseURL
      "https://portfolio-showcase.example-studio.com/" 40).2.2.1 (by decide)).trans (by decide),
   by decide,
   ((truncateURL_cuts_display sampleParseURL "my page" 35).2.2.1 (by decide)).trans
     ((truncateURL_cuts_display sampleParseURL "my page" 35).2.1 (by decide)),
   (truncateURL_cuts_display sampleParseURL
      "https://portfolio-showcase.example-studio.com/" 35).2.2.2.2⟩

/-- C14, as stated, fails for a URL that is longer than the budget while its
hostname + path is not: the address below has 46 characters, more than 40,
and is displayed as its 37-character hostname, without the slash of the path
and without an ellipsis marker. -/
theorem truncateURL_long_url_shown_whole :
    sampleParseURL "https://portfolio-showcase.example-studio.com/"
      = some { hostname := "portfolio-showcase.example-studio.com", pathname := "/" } ∧
    40 < (utf16 "https://portfolio-showcase.example-studio.com/").length ∧
    truncateURL sampleParseURL "https://portfolio-showcase.example-studio.com/" 40
      = utf16 "portfolio-showcase.example-studio.com" ∧
    truncateURL sampleParseURL "https://portfolio-showcase.example-studio.com/" 40
      ≠ (utf16 ("portfolio-showcase.example-studio.com" ++ "/")).take 40 ++ [ellipsis] ∧
    (truncateURL sampleParseURL "https://portfolio-showcase.example-studio.com/" 40).getLast?
      ≠ some ellipsis := by
  decide

/-! ## Slugs -/


theorem isUsernameChar_iff (c : Char) :
    isUsernameChar c = true ↔ isSlugAlnum c = true ∨ c = '-' := by
  simp [isUsernameChar, isSlugAlnum]

theorem isSlugAlnum_ne_hyphen (c : Char) (h : isSlugAlnum c = true) : c ≠ '-' := by
  intro e
  subst e
  revert h
  decide

theorem not_isJsSpace_of_isUsernameChar (c : Char) (h : isUsernameChar c = true) :
    isJsSpace c = false := by
  rcases (isUsernameChar_iff c).1 h with h1 | h1
  · simp only [isSlugAlnum, Bool.or_eq_true, Bool.and_eq_true, decide_eq_true_eq] at h1
    simp only [isJsSpace, Bool.or_eq_false_iff, beq_eq_false_iff_ne, ne_eq, Bool.and_eq_false_imp,
      decide_eq_true_eq, decide_eq_false_iff_not]
    omega
  · subst h1
    decide

theorem noDoubleHyphen_cons (a : Char) (l : List Char) :
    noDoubleHyphen (a :: l) = true ↔
      (a = '-' → l.head? ≠ some '-') ∧ noDoubleHyphen l = true := by
  cases l with
  | nil => simp [noDoubleHyphen]
  | cons b rest =>
    simp only [noDoubleHyphen, Bool.and_eq_true, Bool.not_eq_true', Bool.and_eq_false_imp,
      beq_iff_eq, beq_eq_false_iff_ne, ne_eq, List.head?_cons, Option.some.injEq]

theorem not_occurs_of_noDoubleHyphen (l : List Char) (h : noDoubleHyphen l = true) :
    ¬ ∃ pre post : List Char, l = pre ++ ['-', '-'] ++ post := by
  rintro ⟨pre, post, e⟩
  subst e
  induction pre with
  | nil =>
    simp [noDoubleHyphen] at h
  | cons c pre ih =>
    have h2 := (noDoubleHyphen_cons c _).1 h
    exact ih h2.2

/-- The output of the scan: only `[a-z0-9-]`, no hyphen after a hyphen, and
no hyphen in front when the scan starts inside a run. -/
theorem collapseAux_shape (l : List Char) : ∀ inRun : Bool,
    (∀ c ∈ collapseAux inRun l, isUsernameChar c = true) ∧
    noDoubleHyphen (collapseAux inRun l) = true ∧
    (inRun = true → (collapseAux inRun l).head? ≠ some '-') := by
  induction l with
  | nil =>
    intro inRun
    simp [collapseAux, noDoubleHyphen]
  | cons c cs ih =>
    intro inRun
    by_cases hc : isSlugAlnum c = true
    · have hout : collapseAux inRun (c :: cs) = c :: collapseAux false cs := by
        simp [collapseAux, hc]
      have hne := isSlugAlnum_ne_hyphen c hc
      rw [hout]
      refine ⟨?_, ?_, ?_⟩
      · intro x hx
        rcases List.mem_cons.1 hx with rfl | hx2
        · exact (isUsernameChar_iff _).2 (Or.inl hc)
        · exact (ih false).1 x hx2
      · exact (noDoubleHyphen_cons c _).2 ⟨fun e => absurd e hne, (ih false).2.1⟩
      · intro _
        simpa using hne
    · cases inRun with
      | true =>
        have hout : collapseAux true (c :: cs) = collapseAux true cs := by
          simp [collapseAux, hc]
        rw [hout]
        exact ih true
      | false =>
        have hout : collapseAux false (c :: cs) = '-' :: collapseAux true cs := by
          simp [collapseAux, hc]
        rw [hout]
        refine ⟨?_, ?_, ?_⟩
        · intro x hx
          rcases List.mem_cons.1 hx with rfl | hx2
          · decide
          · exact (ih true).1 x hx2
        · exact (noDoubleHyphen_cons '-' _).2 ⟨fun _ => (ih true).2.2 rfl, (ih true).2.1⟩
        · intro h
          exact absurd h (by decide)

/-- The scan leaves a text of the shape of its output as it is. -/
theorem collapseAux_fixed (l : List Char)
    (hchars : ∀ c ∈ l, isUsernameChar c = true) (hnd : noDoubleHyphen l = true) :
    collapseAux false l = l ∧ (l.head? ≠ some '-' → collapseAux true l = l) := by
  induction l with
  | nil => simp [collapseAux]
  | cons c cs ih =>
    have hcs : ∀ x ∈ cs, isUsernameChar x = true :=
      fun x hx => hchars x (List.mem_cons_of_mem c hx)
    have hnd2 := (noDoubleHyphen_cons c cs).1 hnd
    have ih2 := ih hcs hnd2.2
    by_cases hc : isSlugAlnum c = true
    · constructor
      · simp [collapseAux, hc, ih2.1]
      · intro _
        simp [collapseAux, hc, ih2.1]
    · have hce : c = '-' := by
        rcases (isUsernameChar_iff c).1 (hchars c (List.mem_cons_self c cs)) with h | h
        · exact absurd h hc
        · exact h
      constructor
      · have := ih2.2 (hnd2.1 hce)
        subst hce
        simp [collapseAux, hc, this]
      · intro hh
        simp [hce] at hh

theorem mem_dropLast {α : Type} (l : List α) (x : α) (h : x ∈ l.dropLast) : x ∈ l :=
  (List.dropLast_sublist l).subset h

theorem noDoubleHyphen_dropLast (l : List Char) (h : noDoubleHyphen l = true) :
    noDoubleHyphen l.dropLast = true := by
  induction l with
  | nil => simpa using h
  | cons a rest ih =>
    cases rest with
    | nil => simp [noDoubleHyphen]
    | cons b rest2 =>
      have h2 := (noDoubleHyphen_cons a (b :: rest2)).1 h
      have ih2 := ih h2.2
      rw [List.dropLast_cons₂]
      refine (noDoubleHyphen_cons a _).2 ⟨?_, ih2⟩
      intro ha
      have hb : b ≠ '-' := by
        have := h2.1 ha
        simpa using this
      cases rest2 with
      | nil => simp
      | cons c rest3 => simpa [List.dropLast_cons₂] using hb

theorem getLast?_dropLast_ne (l : List Char) (h : noDoubleHyphen l = true)
    (hl : l.getLast? = some '-') : l.dropLast.getLast? ≠ some '-' := by
  induction l with
  | nil => simp
  | cons a rest ih =>
    cases rest with
    | nil => simp
    | cons b rest2 =>
      have h2 := (noDoubleHyphen_cons a (b :: rest2)).1 h
      have hl2 : (b :: rest2).getLast? = some '-' := by
        simpa [List.getLast?_cons_cons] using hl
      rw [List.dropLast_cons₂]
      cases rest2 with
      | nil =>
        have hb : b = '-' := by simpa using hl2
        have ha : a ≠ '-' := by
          intro ha
          have := h2.1 ha
          simp [hb] at this
        simpa using ha
      | cons c rest3 =>
        have := ih h2.2 hl2
        rw [List.dropLast_cons₂] at this ⊢
        simpa [List.getLast?_cons_cons] using this

theorem head?_dropLast_ne (l : List Char) (h : l.head? ≠ some '-') :
    l.dropLast.head? ≠ some '-' := by
  cases l with
  | nil => simp
  | cons a rest =>
    cases rest with
    | nil => simp
    | cons b rest2 =>
      rw [List.dropLast_cons₂]
      simpa using h


/-- The second pattern of `slugify` on a text of the shape the scan gives. -/
theorem stripHyphens_shape (l : List Char)
    (hchars : ∀ c ∈ l, isUsernameChar c = true) (hnd : noDoubleHyphen l = true) :
    (∀ c ∈ stripHyphens l, isUsernameChar c = true) ∧
    noDoubleHyphen (stripHyphens l) = true ∧
    (stripHyphens l).head? ≠ some '-' ∧
    (stripHyphens l).getLast? ≠ some '-' := by
  have key : ∀ l1 : List Char, (∀ c ∈ l1, isUsernameChar c = true) →
      noDoubleHyphen l1 = true → l1.head? ≠ some '-' →
      (∀ c ∈ (if l1.getLast? = some '-' then l1.dropLast else l1), isUsernameChar c = true) ∧
      noDoubleHyphen (if l1.getLast? = some '-' then l1.dropLast else l1) = true ∧
      (if l1.getLast? = some '-' then l1.dropLast else l1).head? ≠ some '-' ∧
      (if l1.getLast? = some '-' then l1.dropLast else l1).getLast? ≠ some '-' := by
    intro l1 h1 h2 h3
    by_cases hl : l1.getLast? = some '-'
    · simp only [hl, if_true]
      exact ⟨fun c hc => h1 c (mem_dropLast l1 c hc), noDoubleHyphen_dropLast l1 h2,
        head?_dropLast_ne l1 h3, getLast?_dropLast_ne l1 h2 hl⟩
    · simp only [hl, if_false]
      exact ⟨h1, h2, h3, hl⟩
  cases l with
  | nil =>
    simp [stripHyphens, noDoubleHyphen]
  | cons c rest =>
    have hrest : ∀ x ∈ rest, isUsernameChar x = true :=
      fun x hx => hchars x (List.mem_cons_of_mem c hx)
    have hnd2 := (noDoubleHyphen_cons c rest).1 hnd
    by_cases hc : c = '-'
    · have hs : stripHyphens (c :: rest)
          = if rest.getLast? = some '-' then rest.dropLast else rest := by
        simp [stripHyphens, hc]
      rw [hs]
      exact key rest hrest hnd2.2 (hnd2.1 hc)
    · have hs : stripHyphens (c :: rest)
          = if (c :: rest).getLast? = some '-' then (c :: rest).dropLast else c :: rest := by
        simp [stripHyphens, hc]
      rw [hs]
      exact key (c :: rest) hchars hnd (by simpa using hc)

theorem stripHyphens_fixed (l : List Char) (hh : l.head? ≠ some '-')
    (hl : l.getLast? ≠ some '-') : stripHyphens l = l := by
  cases l with
  | nil => simp [stripHyphens]
  | cons c rest =>
    have hc : c ≠ '-' := by simpa using hh
    simp [stripHyphens, hc, hl]

theorem trimStart_fixed (l : List Char) (h : ∀ c ∈ l.head?, isJsSpace c = false) :
    trimStart l = l := by
  cases l with
  | nil => rfl
  | cons c rest =>
    have : isJsSpace c = false := h c (by simp)
    simp [trimStart, this]

theorem jsTrim_fixed (t : String) (h : ∀ c ∈ t.data, isUsernameChar c = true) :
    jsTrim t = t := by
  have h1 : trimStart t.data = t.data := by
    apply trimStart_fixed
    intro c hc
    exact not_isJsSpace_of_isUsernameChar c (h c (List.mem_of_mem_head? hc))
  have h2 : trimStart t.data.reverse = t.data.reverse := by
    apply trimStart_fixed
    intro c hc
    have : c ∈ t.data.reverse := List.mem_of_mem_head? hc
    exact not_isJsSpace_of_isUsernameChar c (h c (List.mem_reverse.1 this))
  unfold jsTrim
  rw [h1, h2, List.reverse_reverse]

theorem collapseAux_append_alnum (xs rest : List Char) (a : Char)
    (ha : isSlugAlnum a = true) : ∀ inRun : Bool,
    collapseAux inRun (xs ++ a :: rest)
      = collapseAux inRun (xs ++ [a]) ++ collapseAux false rest := by
  induction xs with
  | nil =>
    intro inRun
    simp [collapseAux, ha]
  | cons c cs ih =>
    intro inRun
    by_cases hc : isSlugAlnum c = true
    · simp [collapseAux, hc, ih false]
    · cases inRun with
      | true => simp [collapseAux, hc, ih true]
      | false => simp [collapseAux, hc, ih true]

theorem collapseAux_run (run rest : List Char)
    (hnon : ∀ c ∈ run, isSlugAlnum c = false) :
    collapseAux true (run ++ rest) = collapseAux true rest := by
  induction run with
  | nil => rfl
  | cons c cs ih =>
    have hc : isSlugAlnum c = false := hnon c (List.mem_cons_self c cs)
    have hcs : ∀ x ∈ cs, isSlugAlnum x = false :=
      fun x hx => hnon x (List.mem_cons_of_mem c hx)
    simp [collapseAux, hc, ih hcs]

/-- A run of characters outside `[a-z0-9]` between two characters of
`[a-z0-9]` becomes exactly one hyphen. -/
theorem collapseRuns_between (xs run ys : List Char) (a b : Char)
    (ha : isSlugAlnum a = true) (hb : isSlugAlnum b = true) (hrun : run ≠ [])
    (hnon : ∀ c ∈ run, isSlugAlnum c = false) :
    collapseRuns (xs ++ a :: (run ++ b :: ys))
      = collapseRuns (xs ++ [a]) ++ '-' :: collapseRuns (b :: ys) := by
  unfold collapseRuns
  rw [collapseAux_append_alnum xs (run ++ b :: ys) a ha false]
  congr 1
  cases run with
  | nil => exact absurd rfl hrun
  | cons c cs =>
    have hc : isSlugAlnum c = false := hnon c (List.mem_cons_self c cs)
    have hcs : ∀ x ∈ cs, isSlugAlnum x = false :=
      fun x hx => hnon x (List.mem_cons_of_mem c hx)
    have h1 : collapseAux false (c :: cs ++ b :: ys) = '-' :: collapseAux true (cs ++ b :: ys) := by
      simp [collapseAux, hc]
    rw [h1, collapseAux_run cs (b :: ys) hcs]
    simp [collapseAux, hb]

theorem asciiLower_fixed (t : String) (h : ∀ c ∈ t.data, isUsernameChar c = true) :
    asciiLower t = t := by
  apply String.ext
  show t.data.map _ = t.data
  conv_rhs => rw [← List.map_id t.data]
  apply List.map_congr_left
  intro c hc
  have hu := h c hc
  have hno : ¬ (0x41 ≤ c.toNat ∧ c.toNat ≤ 0x5A) := by
    rcases (isUsernameChar_iff c).1 hu with h1 | h1
    · simp only [isSlugAlnum, Bool.or_eq_true, Bool.and_eq_true, decide_eq_true_eq] at h1
      omega
    · subst h1
      decide
  simp [hno]

/-- C15. For every input string `s`, `slugify(s)` contains only lowercase
letters `a-z`, digits and hyphens, neither begins nor ends with a hyphen, and
has no two adjacent hyphens; a run of characters outside `[a-z0-9]` between
two characters of `[a-z0-9]` of the lowercased, trimmed input gives exactly
one hyphen.  This holds whatever the lowercasing of the platform does.
Consequently, with a lowercasing that leaves texts of lowercase letters,
digits and hyphens as they are, `slugify(slugify(s)) = slugify(s)`. -/
theorem slugify_shape_idempotent (toLowerCase : String → String) (s : String) :
    (∀ c ∈ (slugify toLowerCase s).data, isUsernameChar c = true) ∧
    (slugify toLowerCase s).data.head? ≠ some '-' ∧
    (slugify toLowerCase s).data.getLast? ≠ some '-' ∧
    ¬ OccursIn "--" (slugify toLowerCase s) ∧
    (∀ (xs run ys : List Char) (a b : Char),
      isSlugAlnum a = true → isSlugAlnum b = true → run ≠ [] →
      (∀ c ∈ run, isSlugAlnum c = false) →
      (jsTrim (toLowerCase s)).data = xs ++ a :: (run ++ b :: ys) →
      (slugify toLowerCase s).data
        = stripHyphens (collapseRuns (xs ++ [a]) ++ '-' :: collapseRuns (b :: ys))) ∧
    ((∀ t : String, (∀ c ∈ t.data, isUsernameChar c = true) → toLowerCase t = t) →
      slugify toLowerCase (slugify toLowerCase s) = slugify toLowerCase s) := by
  have hcol := collapseAux_shape (jsTrim (toLowerCase s)).data false
  have hshape := stripHyphens_shape (collapseRuns (jsTrim (toLowerCase s)).data) hcol.1 hcol.2.1
  have hdata : (slugify toLowerCase s).data
      = stripHyphens (collapseRuns (jsTrim (toLowerCase s)).data) := rfl
  refine ⟨?_, ?_, ?_, ?_, ?_, ?_⟩
  · rw [hdata]; exact hshape.1
  · rw [hdata]; exact hshape.2.2.1
  · rw [hdata]; exact hshape.2.2.2
  · intro ⟨pre, post, e⟩
    rw [hdata] at e
    exact not_occurs_of_noDoubleHyphen _ hshape.2.1 ⟨pre, post, e⟩
  · intro xs run ys a b ha hb hrun hnon hsplit
    rw [hdata, hsplit, collapseRuns_between xs run ys a b ha hb hrun hnon]
  · intro hfix
    have hlow := hfix (slugify toLowerCase s) (by rw [hdata]; exact hshape.1)
    have htrim := jsTrim_fixed (slugify toLowerCase s) (by rw [hdata]; exact hshape.1)
    have hcolfix := (collapseAux_fixed (slugify toLowerCase s).data
      (by rw [hdata]; exact hshape.1) (by rw [hdata]; exact hshape.2.1)).1
    have hstrip := stripHyphens_fixed (slugify toLowerCase s).data
      (by rw [hdata]; exact hshape.2.2.1) (by rw [hdata]; exact hshape.2.2.2)
    apply String.ext
    show stripHyphens (collapseRuns (jsTrim (toLowerCase (slugify toLowerCase s))).data)
      = (slugify toLowerCase s).data
    rw [hlow, htrim]
    unfold collapseRuns
    rw [hcolfix, hstrip]

/-- The slug of `  Jane  Doe!! ` and its slug, and the run of two blanks in
`A  b`. -/
theorem slugify_shape_idempotent_witness :
    slugify asciiLower "  Jane  Doe!! " = "jane-doe" ∧
    (∀ t : String, (∀ c ∈ t.data, isUsernameChar c = true) → asciiLower t = t) ∧
    slugify asciiLower (slugify asciiLower "  Jane  Doe!! ")
      = slugify asciiLower "  Jane  Doe!! " ∧
    (jsTrim (asciiLower "A  b")).data = [] ++ 'a' :: ([' ', ' '] ++ 'b' :: []) ∧
    (slugify asciiLower "A  b").data
      = stripHyphens (collapseRuns ([] ++ ['a']) ++ '-' :: collapseRuns ('b' :: [])) ∧
    slugify asciiLower "A  b" = "a-b" :=
  ⟨by decide, asciiLower_fixed,
   (slugify_shape_idempotent asciiLower "  Jane  Doe!! ").2.2.2.2.2 asciiLower_fixed,
   by decide,
   (slugify_shape_idempotent asciiLower "A  b").2.2.2.2.1 [] [' ', ' '] [] 'a' 'b'
     (by decide) (by decide) (by decide) (by decide) (by decide),
   by decide⟩

/-! ## States the script writes: the session item -/


theorem not_proto_of_session (st : AppState) (u : String)
    (hw : sessionByScript st = true) (hs : getSession st = some u) :
    u ∉ objectPrototypeKeys := by
  unfold getSession at hs
  unfold sessionByScript at hw
  cases h : st.session with
  | none => simp [h] at hs
  | some s =>
    simp only [h] at hs hw
    by_cases he : s = ""
    · simp [he] at hs
    · simp only [he, if_false, Option.some.injEq] at hs
      subst hs
      simpa using hw

theorem sessionByScript_of_session_eq (st1 st2 : AppState) (h : st1.session = st2.session)
    (hw : sessionByScript st2 = true) : sessionByScript st1 = true := by
  unfold sessionByScript at *
  rw [h]
  exact hw

theorem entrySubmit_session (st : AppState) (f : EntryForm) (uid : String) :
    (entrySubmit st f uid).state.session = st.session := by
  unfold entrySubmit
  cases st.entryEditUsername with
  | none => rfl
  | some username =>
    simp only
    by_cases hu : username = ""
    · simp [hu, Completion.state]
    · simp only [hu, if_false]
      cases getProfile st username with
      | null => rfl
      | inherited k =>
        simp only
        split <;> rfl
      | record p =>
        simp only
        by_cases hb : (entryData f uid).title = "" ∨ (entryData f uid).link = ""
        · simp [hb, Completion.state]
        · simp only [hb, if_false]
          cases p.entries with
          | none => rfl
          | some es =>
            simp only
            rw [(navigate_state_frame _ _).2.1]
            rfl

theorem confirmOk_sessionByScript (st : AppState) (hw : sessionByScript st = true) :
    sessionByScript (confirmOk st).state = true := by
  unfold confirmOk
  cases hc : st.confirmCallback with
  | none => exact hw
  | some cb =>
    cases cb with
    | deleteProfile u => rfl
    | deleteEntry u d =>
      simp only [runPending]
      cases getProfile st u with
      | null => exact hw
      | inherited k => exact hw
      | record p =>
        simp only
        cases p.entries with
        | none => exact hw
        | some es =>
          simp only
          generalize renderEditProfile _ u = r
          cases r <;> exact sessionByScript_of_session_eq _ st rfl hw

theorem createSubmit_sessionByScript (st : AppState) (f : CreateForm) (now : Nat)
    (hw : sessionByScript st = true) : sessionByScript (createSubmit st f now) = true := by
  unfold createSubmit
  simp only
  by_cases hb : jsTrim f.createUsername = "" ∨ jsTrim f.createName = ""
  · simp only [hb, if_true]
    exact hw
  · simp only [hb, if_false]
    cases hg : getProfile st (jsTrim f.createUsername) with
    | null =>
      have hno := ((getProfile_eq_null_iff st _).1 hg).2
      simp only [sessionByScript, toast, setSession, setProfile]
      simpa using hno
    | record p => exact sessionByScript_of_session_eq _ st rfl hw
    | inherited k => exact sessionByScript_of_session_eq _ st rfl hw

/-- Every handler of the model keeps the session item one the script can have
written, from the first visit on. -/
theorem sessionByScript_kept (st : AppState) (hw : sessionByScript st = true) :
    sessionByScript initialState = true ∧
    (∀ (f : CreateForm) (now : Nat), sessionByScript (createSubmit st f now) = true) ∧
    (∀ (f : EntryForm) (uid : String), sessionByScript (entrySubmit st f uid).state = true) ∧
    sessionByScript (confirmOk st).state = true ∧
    sessionByScript (confirmCancel st) = true ∧
    (∀ cb : Pending, sessionByScript (showConfirm st cb) = true) ∧
    (∀ u : String, sessionByScript (openEntryModal st u) = true) ∧
    (∀ h : String, sessionByScript (navigate st h).state = true) ∧
    sessionByScript (logout st).state = true ∧
    (∀ h : String, sessionByScript { st with hash := h } = true) := by
  refine ⟨rfl, ?_, ?_, ?_, ?_, ?_, ?_, ?_, ?_, ?_⟩
  · intro f now
    exact createSubmit_sessionByScript st f now hw
  · intro f uid
    exact sessionByScript_of_session_eq _ st (entrySubmit_session st f uid) hw
  · exact confirmOk_sessionByScript st hw
  · exact sessionByScript_of_session_eq _ st rfl hw
  · intro cb
    exact sessionByScript_of_session_eq _ st rfl hw
  · intro u
    exact sessionByScript_of_session_eq _ st rfl hw
  · intro h
    exact sessionByScript_of_session_eq _ st (navigate_state_frame st h).2.1 hw
  · unfold logout
    exact sessionByScript_of_session_eq _ (clearSession st)
      (navigate_state_frame (clearSession st) "#/").2.1 rfl
  · intro h
    exact sessionByScript_of_session_eq _ st rfl hw

/-- C6. For every store and every username `u` that is the active session,
the session item being one the script can have written: confirming Delete
Profile for `u` returns and yields a store in which `getProfile(u)` is absent
and what `getProfile` returns for every other username is unchanged, and an
absent session; no entry of `u` is left. -/
theorem delete_profile_of_session (st : AppState) (u : String)
    (harm : st.confirmCallback = some (.deleteProfile u))
    (hs : getSession st = some u) (hw : sessionByScript st = true) :
    confirmOk st = .normal (confirmOk st).state ∧
    getProfile (confirmOk st).state u = .null ∧
    (∀ v : String, v ≠ u → getProfile (confirmOk st).state v = getProfile st v) ∧
    getSession (confirmOk st).state = none ∧
    storedEntries (confirmOk st).state u = [] := by
  have h := delete_profile_effect st u harm
  have hu := not_proto_of_session st u hw hs
  have hnull := h.2.2.1 hu
  refine ⟨h.1, hnull, h.2.2.2.1, h.2.2.2.2.1, ?_⟩
  simp [storedEntries, hnull]

/-- The owner of `jane-doe` confirms Delete Profile. -/
theorem delete_profile_of_session_witness :
    let st : AppState := { janeState with confirmCallback := some (.deleteProfile "jane-doe") }
    st.confirmCallback = some (.deleteProfile "jane-doe") ∧
    getSession st = some "jane-doe" ∧
    sessionByScript st = true ∧
    getProfile st "jane-doe" = .record janeProfile ∧
    confirmOk st = .normal (confirmOk st).state ∧
    getProfile (confirmOk st).state "jane-doe" = .null ∧
    getSession (confirmOk st).state = none ∧
    storedEntries (confirmOk st).state "jane-doe" = [] :=
  ⟨rfl, by decide, by decide, by decide,
   (delete_profile_of_session
      { janeState with confirmCallback := some (.deleteProfile "jane-doe") } "jane-doe"
      rfl (by decide) (by decide)).1,
   (delete_profile_of_session
      { janeState with confirmCallback := some (.deleteProfile "jane-doe") } "jane-doe"
      rfl (by decide) (by decide)).2.1,
   (delete_profile_of_session
      { janeState with confirmCallback := some (.deleteProfile "jane-doe") } "jane-doe"
      rfl (by decide) (by decide)).2.2.2.1,
   (delete_profile_of_session
      { janeState with confirmCallback := some (.deleteProfile "jane-doe") } "jane-doe"
      rfl (by decide) (by decide)).2.2.2.2⟩

/-- C10. For every route username `u`, every store and every session value,
the session item being one the script can have written: the Edit view of `u`
is the access-denied block exactly when the session differs from `u`, with or
without a stored profile and also without a session; when the session equals
`u`, it is the not-found block exactly when no profile is stored under `u`,
and the edit form of the stored profile otherwise.  Rendering it changes
neither the stored item nor the session. -/
theorem edit_view_by_session (st : AppState) (u : String)
    (hw : sessionByScript st = true) :
    (renderEditProfile st u = .view .accessDenied ↔ getSession st ≠ some u) ∧
    (getSession st = some u →
      (renderEditProfile st u = .view .notFound ↔
        Obj.own (loadProfiles st.profiles) u = none) ∧
      (∀ p : Profile, Obj.own (loadProfiles st.profiles) u = some p →
        renderEditProfile st u = .view (.form (.record p) (p.entries.getD [])))) ∧
    (navigate st ("#/edit/" ++ u)).state.profiles = st.profiles ∧
    (navigate st ("#/edit/" ++ u)).state.session = st.session := by
  have h := edit_view_outcome st u
  refine ⟨h.1, ?_, h.2.2.1, h.2.2.2⟩
  intro hs
  exact h.2.1 hs (not_proto_of_session st u hw hs)

/-- The Edit view of `jane-doe`: for its owner, for the owner after the
record was removed from the store, for a visitor without a session, and for
the owner on another username. -/
theorem edit_view_by_session_witness :
    sessionByScript janeState = true ∧
    getSession janeState = some "jane-doe" ∧
    renderEditProfile janeState "jane-doe"
      = .view (.form (.record janeProfile) [entryA, entryB]) ∧
    renderEditProfile { janeState with profiles := .absent } "jane-doe" = .view .notFound ∧
    renderEditProfile { janeState with session := none } "jane-doe" = .view .accessDenied ∧
    renderEditProfile janeState "constructor" = .view .accessDenied :=
  ⟨by decide, by decide,
   ((edit_view_by_session janeState "jane-doe" (by decide)).2.1 (by decide)).2 janeProfile
     (by decide),
   ((edit_view_by_session { janeState with profiles := .absent } "jane-doe" (by decide)).2.1
     (by decide)).1.2 (by decide),
   (edit_view_by_session { janeState with session := none } "jane-doe" (by decide)).1.2
     (by decide),
   (edit_view_by_session janeState "constructor" (by decide)).1.2 (by decide)⟩

end Prooffolio
